import Mathlib

/-!
Verification of the C2-NET training orchestrator (`src/train.py`) against its
natural-language specification.

The file gives a shallow embedding of the training loop.  The external
numerical collaborators (the C3D network forward pass, cross-entropy loss,
autograd, the Adam optimizer, the cosine-annealing scheduler, the data
loader's batching, and the checkpoint filesystem) are abstracted as oracle
fields of an `Env` structure; everything the orchestrator itself does
(epoch/phase sequencing, per-batch accumulation, metric computation, CSV
dumps, scalar logging, checkpointing, resume handling, fatal errors) is
translated line by line from `train.py`.

Conventions:
- Real-valued quantities (losses, probabilities, metrics) are modelled as ℚ.
- The configured run has `dataset = 'hmdb51'`, hence `num_classes = 2`
  (train.py lines 30-33).  The softmax output row for a sample is therefore
  `[1 - p, p]` where `p` is the positive-class probability
  (`probs[:, 1]`); the oracle reports `p` per sample.
- `inputs.size(0)` of a loader batch equals the number of labels in the
  batch, so batch size is modelled as `labels.length`.
- File paths are relative to `save_dir`.
-/

deriving instance DecidableEq for Except

namespace C2Net

/-- The two phases of the per-epoch train/validation loop
(`for phase in ['train', 'val']`, train.py line 104). -/
inductive Phase where
  | train
  | wval
  deriving DecidableEq, Repr

/-- Phase name string as used in log messages and CSV paths. -/
def Phase.nameStr : Phase → String
  | .train => "train"
  | .wval => "val"

/-- A loader batch: opaque input tensors plus the integer labels
(one per sample).  `ι` abstracts the clip tensor payload. -/
structure BatchIn (ι : Type) where
  inputs : ι
  labels : List Nat
  deriving DecidableEq, Repr

/-- Checkpoint file contents: the dict saved at train.py lines 170-174
(`'epoch'`, `'state_dict'`, `'opt_dict'`). -/
structure Ckpt (P O : Type) where
  epoch : Nat
  state_dict : P
  opt_dict : O
  deriving DecidableEq, Repr

/-- Mutable trainable state owned by the orchestrator: model parameters,
parameter gradients, optimizer internal state, scheduler state, and the
module training-mode flag (`model.train()` / `model.eval()`). -/
structure TState (P O G S : Type) where
  params : P
  grads : G
  opt : O
  sched : S
  training : Bool
  deriving DecidableEq, Repr

/-- Per-phase accumulators (train.py lines 107-110 / 181-184). -/
structure Accum where
  runningLoss : ℚ
  runningCorrects : Nat
  runningProbs : List ℚ
  runningLabels : List Nat
  deriving DecidableEq, Repr

/-- Initial accumulator values at the start of a phase. -/
def accum0 : Accum := ⟨0, 0, [], []⟩

/-- What the loop observes for one batch: its labels, the per-sample positive
class probabilities `probs[:, 1]`, and the (mean) criterion loss value. -/
structure Obs where
  labels : List Nat
  probs : List ℚ
  loss : ℚ
  deriving DecidableEq, Repr

/-- Oracles for the external numerical collaborators plus the run inputs.
`ι` = input tensor payload, `P` = model parameters, `O` = optimizer internal
state, `G` = gradients, `S` = scheduler state. -/
structure Env (ι P O G S : Type) where
  /-- `nn.Softmax(dim=1)(model(inputs))[:, 1].tolist()`: per-sample positive
  class probability, depending on parameters and training-mode flag. -/
  probsOf : P → Bool → ι → List ℚ
  /-- `criterion(model(inputs), labels).item()`: batch mean loss. -/
  lossOf : P → Bool → ι → List Nat → ℚ
  /-- `loss.backward()`: gradients accumulated on top of current ones. -/
  gradOf : P → G → ι → List Nat → G
  /-- `optimizer.step()`: new parameters and optimizer state from gradients. -/
  adamStep : P → G → O → P × O
  /-- `optimizer.zero_grad()`. -/
  zeroGrads : G → G
  /-- `scheduler.step()`. -/
  schedStep : S → S
  /-- Freshly constructed model / optimizer / scheduler (train.py 72-75). -/
  initState : TState P O G S
  /-- `trainval_loaders[phase]` batches for a given epoch. -/
  loadBatches : Nat → Phase → List (BatchIn ι)
  /-- `test_dataloader` batches for a given epoch. -/
  testBatches : Nat → List (BatchIn ι)
  /-- `trainval_sizes[phase] = len(trainval_loaders[phase].dataset)`. -/
  splitSize : Phase → Nat
  /-- `test_size = len(test_dataloader.dataset)`. -/
  testSize : Nat
  /-- The checkpoint filesystem: contents of `torch.load(path)` if the file
  exists. -/
  fsload : String → Option (Ckpt P O)
  /-- Whether a loaded `state_dict` matches the current model's parameter
  shapes (`model.load_state_dict` succeeds). -/
  compatible : P → Bool

variable {ι P O G S : Type}

/-- `modelName + '-' + dataset` (train.py line 52). -/
def saveName : String := "C3D-hmdb51"

/-- Checkpoint file path for an epoch index `e`
(train.py line 174: `saveName + '_epoch-' + str(epoch) + '.pth.tar'`). -/
def ckptPath (e : Nat) : String :=
  "models/" ++ saveName ++ "_epoch-" ++ Nat.repr e ++ ".pth.tar"

/-- CSV dump path (train.py line 61: `f'{phase}_epoch_{epoch}.csv'` under the
`predictions` directory). -/
def csvPath (phName : String) (e : Nat) : String :=
  "predictions/" ++ phName ++ "_epoch_" ++ Nat.repr e ++ ".csv"

/-- Observable side effects of the run: scalar-log entries
(`writer.add_scalar`), CSV prediction dumps (`save_to_csv`), and checkpoint
writes (`torch.save`).  A CSV dump records the phase string and epoch it was
invoked with alongside the file path it determines; a checkpoint write
records its epoch key alongside the path that key determines. -/
inductive Event (P O : Type) where
  | scalar (tag : String) (epoch : Nat) (value : ℚ)
  | csvDump (phName : String) (epoch : Nat) (path : String)
      (header : List String) (rows : List (Nat × ℚ))
  | ckptSave (key : Nat) (path : String) (data : Ckpt P O)
  deriving DecidableEq, Repr

/-- `save_to_csv(epoch, phase, labels, probs, save_dir)` (train.py 56-67):
writes the header row then one row per `zip(labels, probs)` element. -/
def save_to_csv (e : Nat) (phName : String) (labels : List Nat)
    (probs : List ℚ) : Event P O :=
  .csvDump phName e (csvPath phName e) ["TrueLabel", "Probability"]
    (labels.zip probs)

/-- `torch.max(probs, 1)[1]` for a two-class softmax row `[1 - p, p]`:
index 1 iff the second entry strictly exceeds the first (ties pick the
first maximal index). -/
def pred2 (p : ℚ) : Nat := if 1 - p < p then 1 else 0

/-- `torch.sum(preds == labels.data)`: number of positions where prediction
equals label. -/
def countCorrect (preds labels : List Nat) : Nat :=
  (preds.zip labels).countP fun x => x.1 == x.2

/-- `[1 if p > 0.5 else 0 for p in running_probs]` (train.py 145-146). -/
def thresholdPreds (probs : List ℚ) : List Nat :=
  probs.map fun p => if (1 : ℚ) / 2 < p then 1 else 0

/-- `sklearn.metrics.recall_score(y_true, y_pred, pos_label)`: recall of the
class `posLabel`; `0` when the class has no support (sklearn returns `0.0`
with a warning in that case). -/
def recallScore (labels preds : List Nat) (posLabel : Nat) : ℚ :=
  let pairs := labels.zip preds
  let support := (pairs.filter fun x => x.1 == posLabel).length
  if support = 0 then 0
  else ((pairs.filter fun x => x.1 == posLabel && x.2 == posLabel).length : ℚ)
        / (support : ℚ)

/-- AUC contribution of one (positive score, negative score) pair. -/
def pairScore (p n : ℚ) : ℚ := if n < p then 1 else if p = n then 1 / 2 else 0

/-- `sklearn.metrics.roc_auc_score(y_true, y_score)` for binary 0/1 labels:
`none` models the `ValueError` raised when only one class is present in
`y_true` (or the label format is not binary 0/1); otherwise the
Mann-Whitney pair-counting value of the ROC AUC. -/
def rocAucScore (labels : List Nat) (scores : List ℚ) : Option ℚ :=
  let pairs := labels.zip scores
  let pos := (pairs.filter fun x => x.1 == 1).map Prod.snd
  let neg := (pairs.filter fun x => x.1 == 0).map Prod.snd
  if pos.isEmpty || neg.isEmpty || labels.any (fun l => 1 < l) then none
  else some ((pos.map fun p => (neg.map (pairScore p)).sum).sum
              / ((pos.length : ℚ) * (neg.length : ℚ)))

/-- What the loop observes for one batch from a given trainable state:
labels, positive-class probabilities, and the criterion loss. -/
def obsOf (env : Env ι P O G S) (st : TState P O G S) (b : BatchIn ι) : Obs :=
  ⟨b.labels, env.probsOf st.params st.training b.inputs,
    env.lossOf st.params st.training b.inputs b.labels⟩

/-- Accumulator update for one batch (train.py 136-140 / 197-201):
`running_loss += loss.item() * inputs.size(0)`,
`running_corrects += torch.sum(preds == labels.data)`,
`running_probs.extend(probs[:, 1].tolist())`,
`running_labels.extend(labels.tolist())`. -/
def accumUpd (a : Accum) (o : Obs) : Accum :=
  ⟨a.runningLoss + o.loss * (o.labels.length : ℚ),
    a.runningCorrects + countCorrect (o.probs.map pred2) o.labels,
    a.runningProbs ++ o.probs,
    a.runningLabels ++ o.labels⟩

/-- State change of one training batch (train.py 121, 133-134):
`optimizer.zero_grad()`, then `loss.backward()`, then `optimizer.step()`. -/
def trainStateStep (env : Env ι P O G S) (st : TState P O G S)
    (b : BatchIn ι) : TState P O G S :=
  let g1 := env.zeroGrads st.grads
  let g2 := env.gradOf st.params g1 b.inputs b.labels
  let po := env.adamStep st.params g2 st.opt
  { st with params := po.1, grads := g2, opt := po.2 }

/-- State change of one validation batch: only `optimizer.zero_grad()`
(train.py line 121); the forward pass runs under `torch.no_grad()` and no
backward pass or optimizer step is executed. -/
def valStateStep (env : Env ι P O G S) (st : TState P O G S)
    (_b : BatchIn ι) : TState P O G S :=
  { st with grads := env.zeroGrads st.grads }

/-- State change of one batch of the given phase. -/
def phaseStateStep (env : Env ι P O G S) (ph : Phase) (st : TState P O G S)
    (b : BatchIn ι) : TState P O G S :=
  match ph with
  | .train => trainStateStep env st b
  | .wval => valStateStep env st b

/-- One iteration of the train/val batch loop (train.py 118-140). -/
def batchStep (env : Env ι P O G S) (ph : Phase)
    (sa : TState P O G S × Accum) (b : BatchIn ι) : TState P O G S × Accum :=
  (phaseStateStep env ph sa.1 b, accumUpd sa.2 (obsOf env sa.1 b))

/-- One iteration of the test batch loop (train.py 186-201): forward under
`torch.no_grad()` and accumulation only; the state is untouched (the test
loop performs no `zero_grad`, no backward pass, no optimizer step). -/
def testBatchStep (env : Env ι P O G S)
    (sa : TState P O G S × Accum) (b : BatchIn ι) : TState P O G S × Accum :=
  (sa.1, accumUpd sa.2 (obsOf env sa.1 b))

/-- The sequence of per-batch observations of a phase, following the state
trajectory of the batch loop. -/
def obsTraj (env : Env ι P O G S) (ph : Phase) :
    TState P O G S → List (BatchIn ι) → List Obs
  | _, [] => []
  | st, b :: bs => obsOf env st b :: obsTraj env ph (phaseStateStep env ph st b) bs

/-- Phase setup (train.py 112-116): in the train phase `scheduler.step()` and
`model.train()`; otherwise `model.eval()`. -/
def phaseStart (env : Env ι P O G S) (ph : Phase) (st : TState P O G S) :
    TState P O G S :=
  match ph with
  | .train => { st with sched := env.schedStep st.sched, training := true }
  | .wval => { st with training := false }

/-- Fatal error conditions of the run. -/
inductive Err where
  | resumeMissing (path : String)
  | resumeIncompatible (path : String)
  | aucUndefined (epoch : Nat) (phName : String)
  deriving DecidableEq, Repr

/-- Scalar-log tag of the per-epoch loss of a phase namespace. -/
def lossTag (phName : String) : String := "data/" ++ phName ++ "_loss_epoch"

/-- Scalar-log tag of the per-epoch accuracy of a phase namespace. -/
def accTag (phName : String) : String := "data/" ++ phName ++ "_acc_epoch"

/-- Scalar-log tag of the per-epoch AUC of a phase namespace. -/
def aucTag (phName : String) : String := "data/" ++ phName ++ "_auc_epoch"

/-- Scalar-log tag of the per-epoch sensitivity of a phase namespace. -/
def sensTag (phName : String) : String :=
  "data/" ++ phName ++ "_sensitivity_epoch"

/-- Scalar-log tag of the per-epoch specificity of a phase namespace. -/
def specTag (phName : String) : String :=
  "data/" ++ phName ++ "_specificity_epoch"

/-- The five `writer.add_scalar` calls of one phase, in source order
(loss, acc, auc, sensitivity, specificity).  The source writes the literal
tags `'data/train_loss_epoch'` etc. per branch (train.py 151-162, 212-216);
here they are assembled from the phase name, producing the same strings. -/
def scalarEvents (phName : String) (e : Nat) (l a u sn sp : ℚ) :
    List (Event P O) :=
  [.scalar (lossTag phName) e l,
   .scalar (accTag phName) e a,
   .scalar (aucTag phName) e u,
   .scalar (sensTag phName) e sn,
   .scalar (specTag phName) e sp]

/-- End-of-phase metric computation and emission (train.py 142-162 /
203-216): epoch loss and accuracy, then `roc_auc_score` — whose
`ValueError` on a degenerate label list aborts the phase before anything is
emitted — then sensitivity and specificity, the CSV dump, and the five
scalar-log entries. -/
def metricEvents (phName : String) (e : Nat) (sz : Nat) (a : Accum) :
    Option (List (Event P O)) :=
  match rocAucScore a.runningLabels a.runningProbs with
  | none => none
  | some auc =>
      some (save_to_csv e phName a.runningLabels a.runningProbs ::
            scalarEvents phName e (a.runningLoss / (sz : ℚ))
              ((a.runningCorrects : ℚ) / (sz : ℚ)) auc
              (recallScore a.runningLabels (thresholdPreds a.runningProbs) 1)
              (recallScore a.runningLabels (thresholdPreds a.runningProbs) 0))

/-- One train/val phase of one epoch (train.py 104-167). -/
def runPhase (env : Env ι P O G S) (e : Nat) (ph : Phase)
    (st : TState P O G S) : Except Err (List (Event P O) × TState P O G S) :=
  match metricEvents ph.nameStr e (env.splitSize ph)
      ((env.loadBatches e ph).foldl (batchStep env ph)
        (phaseStart env ph st, accum0)).2 with
  | none => .error (.aucUndefined e ph.nameStr)
  | some evs =>
      .ok (evs, ((env.loadBatches e ph).foldl (batchStep env ph)
        (phaseStart env ph st, accum0)).1)

/-- The end-of-epoch test evaluation pass (train.py 177-221):
`model.eval()`, the no-gradient batch loop, then metrics under the
`"test"` namespace. -/
def runTest (env : Env ι P O G S) (e : Nat) (st : TState P O G S) :
    Except Err (List (Event P O) × TState P O G S) :=
  match metricEvents "test" e env.testSize
      ((env.testBatches e).foldl (testBatchStep env)
        ({ st with training := false }, accum0)).2 with
  | none => .error (.aucUndefined e "test")
  | some evs =>
      .ok (evs, ((env.testBatches e).foldl (testBatchStep env)
        ({ st with training := false }, accum0)).1)

/-- Result of a run or of a run fragment: the emitted event trace together
with either the final state or the fatal error that terminated it. -/
inductive RunResult (P O G S : Type) where
  | ok (trace : List (Event P O)) (st : TState P O G S)
  | fatal (trace : List (Event P O)) (err : Err)
  deriving DecidableEq, Repr

/-- The event trace of a run result (also the partial trace on a fatal run). -/
def RunResult.trace : RunResult P O G S → List (Event P O)
  | .ok t _ => t
  | .fatal t _ => t

/-- Whether the run terminated with a fatal error. -/
def RunResult.isFatal : RunResult P O G S → Bool
  | .ok _ _ => false
  | .fatal _ _ => true

/-- Run configuration, from the module-level constants of train.py
(lines 23-27) as consumed by `train_model`. -/
structure Cfg where
  numEpochs : Nat
  resumeEpoch : Nat
  saveEpoch : Nat
  useTest : Bool
  testInterval : Nat
  deriving DecidableEq, Repr

/-- The configured constants of train.py: `nEpochs = 200`,
`resume_epoch = 0`, `snapshot = 10`, `useTest = True`, `nTestInterval = 1`. -/
def defaultCfg : Cfg := ⟨200, 0, 10, true, 1⟩

/-- The checkpoint write of the end of epoch `e`
(`if epoch % save_epoch == (save_epoch - 1)`, train.py 169-175): the dict
`{'epoch': epoch + 1, 'state_dict': ..., 'opt_dict': ...}` saved to the file
keyed by `epoch`; no write otherwise. -/
def ckptEvents (cfg : Cfg) (e : Nat) (st : TState P O G S) :
    List (Event P O) :=
  if e % cfg.saveEpoch = cfg.saveEpoch - 1 then
    [.ckptSave e (ckptPath e) ⟨e + 1, st.params, st.opt⟩]
  else []

/-- One iteration of the epoch loop (train.py 103-221): the train phase, the
val phase, the conditional checkpoint write, then the conditional test pass
(`if useTest and epoch % test_interval == (test_interval - 1)`).
A fatal error keeps the events emitted before it. -/
def runEpoch (env : Env ι P O G S) (cfg : Cfg) (e : Nat)
    (st : TState P O G S) : RunResult P O G S :=
  match runPhase env e .train st with
  | .error er => .fatal [] er
  | .ok (t1, st1) =>
    match runPhase env e .wval st1 with
    | .error er => .fatal t1 er
    | .ok (t2, st2) =>
      if cfg.useTest = true ∧ e % cfg.testInterval = cfg.testInterval - 1 then
        match runTest env e st2 with
        | .error er => .fatal (t1 ++ t2 ++ ckptEvents cfg e st2) er
        | .ok (t4, st4) => .ok (t1 ++ t2 ++ ckptEvents cfg e st2 ++ t4) st4
      else .ok (t1 ++ t2 ++ ckptEvents cfg e st2) st2

/-- The epoch loop over an explicit list of epoch indices, short-circuiting
on the first fatal error while keeping the trace emitted so far. -/
def runEpochs (env : Env ι P O G S) (cfg : Cfg) :
    List Nat → TState P O G S → RunResult P O G S
  | [], st => .ok [] st
  | e :: es, st =>
    match runEpoch env cfg e st with
    | .fatal t er => .fatal t er
    | .ok t st' =>
      match runEpochs env cfg es st' with
      | .fatal t' er => .fatal (t ++ t') er
      | .ok t' st'' => .ok (t ++ t') st''

/-- `range(resume_epoch, num_epochs)` (train.py line 103). -/
def epochList (cfg : Cfg) : List Nat :=
  List.range' cfg.resumeEpoch (cfg.numEpochs - cfg.resumeEpoch)

/-- `train_model` (train.py 70-223).  When `resume_epoch != 0` the run first
loads the checkpoint file
`saveName + '_epoch-' + str(resume_epoch - 1) + '.pth.tar'`
(train.py line 80): a missing file or a `state_dict` that does not match the
model's parameter shapes is fatal before any epoch runs; otherwise model
parameters and optimizer state are replaced by the loaded ones.  Then the
epoch loop runs over `range(resume_epoch, num_epochs)`. -/
def train_model (env : Env ι P O G S) (cfg : Cfg) : RunResult P O G S :=
  if cfg.resumeEpoch = 0 then
    runEpochs env cfg (epochList cfg) env.initState
  else
    match env.fsload (ckptPath (cfg.resumeEpoch - 1)) with
    | none => .fatal [] (.resumeMissing (ckptPath (cfg.resumeEpoch - 1)))
    | some d =>
      if env.compatible d.state_dict then
        runEpochs env cfg (epochList cfg)
          { env.initState with params := d.state_dict, opt := d.opt_dict }
      else .fatal [] (.resumeIncompatible (ckptPath (cfg.resumeEpoch - 1)))

/-- The five scalar tags of a phase namespace. -/
def phaseTags (phName : String) : List String :=
  [lossTag phName, accTag phName, aucTag phName, sensTag phName,
   specTag phName]

/-- Whether an event belongs to the scalar-log namespace or the CSV dumps of
the named phase. -/
def Event.belongsTo (phName : String) : Event P O → Bool
  | .scalar tag _ _ => decide (tag ∈ phaseTags phName)
  | .csvDump p _ _ _ _ => p == phName
  | .ckptSave _ _ _ => false

/-- The epoch index a scalar-log entry or CSV dump was emitted for. -/
def Event.logEpoch? : Event P O → Option Nat
  | .scalar _ e _ => some e
  | .csvDump _ e _ _ _ => some e
  | .ckptSave _ _ _ => none

/-- Whether an event is a checkpoint write. -/
def Event.isCkpt : Event P O → Bool
  | .ckptSave _ _ _ => true
  | _ => false

/-- The (epoch key, contents) pair of a checkpoint write event, if any. -/
def ckptSaveOf? : Event P O → Option (Nat × Ckpt P O)
  | .ckptSave k _ d => some (k, d)
  | _ => none

/-- The checkpoint writes of a trace, as (epoch key, contents) pairs. -/
def ckptSavesOf (t : List (Event P O)) : List (Nat × Ckpt P O) :=
  t.filterMap ckptSaveOf?

/-- The epoch keys of the checkpoint writes of a trace. -/
def ckptKeysOf (t : List (Event P O)) : List Nat :=
  (ckptSavesOf t).map Prod.fst

/-- The epoch indices carried by the scalar-log entries and CSV dumps of a
trace (the epochs the run visibly processed). -/
def loggedEpochsOf (t : List (Event P O)) : List Nat :=
  t.filterMap Event.logEpoch?

/-- A label list containing only a single class. -/
def degenerateLabels (ls : List Nat) : Prop :=
  ls ≠ [] ∧ ∃ c, ∀ x ∈ ls, x = c

/-- The accumulated true-label list of a train/val phase at an epoch: the
concatenation of the loader's batch labels in encounter order. -/
def phaseLabels (env : Env ι P O G S) (e : Nat) (ph : Phase) : List Nat :=
  ((env.loadBatches e ph).map BatchIn.labels).flatten

/-- The accumulated true-label list of the test pass at an epoch. -/
def testLabels (env : Env ι P O G S) (e : Nat) : List Nat :=
  ((env.testBatches e).map BatchIn.labels).flatten

/-! Concrete harness instantiations used to exhibit runs of the embedded
orchestrator on explicit inputs.  The input payload `ι := List ℚ` carries
the per-sample positive-class probabilities the model oracle reports for the
batch; parameters, gradients, optimizer and scheduler states are counters. -/

/-- A batch of two samples with labels `[1, 0]` and reported positive-class
probabilities `[9/10, 1/10]` (both classes present, so AUC is defined). -/
def batchW : BatchIn (List ℚ) := ⟨[9 / 10, 1 / 10], [1, 0]⟩

/-- A batch of two samples that both carry label `0` (single-class). -/
def batchDeg : BatchIn (List ℚ) := ⟨[9 / 10, 1 / 10], [0, 0]⟩

/-- Base harness environment: every split yields the single batch `batchW`;
the filesystem is empty. -/
def envW : Env (List ℚ) Nat Nat Nat Nat where
  probsOf := fun _ _ x => x
  lossOf := fun _ _ _ _ => 1
  gradOf := fun _ g _ _ => g + 1
  adamStep := fun p _ o => (p + 1, o + 1)
  zeroGrads := fun _ => 0
  schedStep := fun s => s + 1
  initState := ⟨0, 0, 0, 0, true⟩
  loadBatches := fun _ _ => [batchW]
  testBatches := fun _ => [batchW]
  splitSize := fun _ => 2
  testSize := 2
  fsload := fun _ => none
  compatible := fun _ => true

/-- One-epoch fresh run with checkpoint interval 1 and tests disabled. -/
def cfgA : Cfg := ⟨1, 0, 1, false, 1⟩

/-- Harness with a checkpoint file at the path keyed by epoch 1 (the file
whose name embeds the resume epoch index 1) and nowhere else. -/
def envC1 : Env (List ℚ) Nat Nat Nat Nat :=
  { envW with fsload := fun p => if p = ckptPath 1 then some ⟨2, 0, 0⟩ else none }

/-- Resume-from-epoch-1 configuration. -/
def cfgC1 : Cfg := ⟨2, 1, 10, false, 1⟩

/-- Harness whose filesystem holds exactly the checkpoint written by the
run `train_model envW cfgA` (file keyed by epoch 0, contents
`{'epoch': 1, 'state_dict': 1, 'opt_dict': 1}`). -/
def envC2 : Env (List ℚ) Nat Nat Nat Nat :=
  { envW with fsload := fun p => if p = ckptPath 0 then some ⟨1, 1, 1⟩ else none }

/-- Configuration resuming from the checkpoint keyed by epoch 0
(`resume_epoch = 1`), with two total epochs. -/
def cfgC2 : Cfg := ⟨2, 1, 10, false, 1⟩

/-- Harness whose test split is single-class (all labels 0) while train and
val splits contain both classes. -/
def envC3 : Env (List ℚ) Nat Nat Nat Nat :=
  { envW with testBatches := fun _ => [batchDeg] }

/-- One-epoch run with checkpoint interval 1 and test evaluation enabled at
every epoch. -/
def cfgC3 : Cfg := ⟨1, 0, 1, true, 1⟩

/-- Harness whose validation split is single-class (all labels 0) while the
train split contains both classes. -/
def envC3v : Env (List ℚ) Nat Nat Nat Nat :=
  { envW with loadBatches := fun _ ph =>
      match ph with
      | .train => [batchW]
      | .wval => [batchDeg] }

/-- The events of the train phase of epoch 0 of `envW`. -/
def trW : List (Event Nat Nat) :=
  [.csvDump "train" 0 "predictions/train_epoch_0.csv"
      ["TrueLabel", "Probability"] [(1, 9 / 10), (0, 1 / 10)],
   .scalar "data/train_loss_epoch" 0 1,
   .scalar "data/train_acc_epoch" 0 1,
   .scalar "data/train_auc_epoch" 0 1,
   .scalar "data/train_sensitivity_epoch" 0 1,
   .scalar "data/train_specificity_epoch" 0 1]

/-- The state after the train phase of epoch 0 of `envW`. -/
def stW : TState Nat Nat Nat Nat := ⟨1, 1, 1, 1, true⟩

/-- The events of the val phase of epoch 0 of `envW`, run from the fresh
state. -/
def tvW : List (Event Nat Nat) :=
  [.csvDump "val" 0 "predictions/val_epoch_0.csv"
      ["TrueLabel", "Probability"] [(1, 9 / 10), (0, 1 / 10)],
   .scalar "data/val_loss_epoch" 0 1,
   .scalar "data/val_acc_epoch" 0 1,
   .scalar "data/val_auc_epoch" 0 1,
   .scalar "data/val_sensitivity_epoch" 0 1,
   .scalar "data/val_specificity_epoch" 0 1]

/-- The events of the test pass of epoch 0 of `envW`, run from the fresh
state. -/
def ttW : List (Event Nat Nat) :=
  [.csvDump "test" 0 "predictions/test_epoch_0.csv"
      ["TrueLabel", "Probability"] [(1, 9 / 10), (0, 1 / 10)],
   .scalar "data/test_loss_epoch" 0 1,
   .scalar "data/test_acc_epoch" 0 1,
   .scalar "data/test_auc_epoch" 0 1,
   .scalar "data/test_sensitivity_epoch" 0 1,
   .scalar "data/test_specificity_epoch" 0 1]

/-- The fresh state with the training-mode flag cleared by `model.eval()`. -/
def stEvalW : TState Nat Nat Nat Nat := ⟨0, 0, 0, 0, false⟩

section Lemmas

variable {ι P O G S : Type}

/-- For a two-class softmax row `[1 - p, p]`, the argmax picks index 1
exactly when the positive-class probability exceeds `1/2`. -/
theorem pred2_eq_threshold (p : ℚ) :
    pred2 p = if (1 : ℚ) / 2 < p then 1 else 0 := by
  unfold pred2
  by_cases h : (1 : ℚ) / 2 < p
  · rw [if_pos (by linarith), if_pos h]
  · rw [if_neg (by linarith), if_neg h]

/-- `epoch % s = s - 1` is the same as `(epoch + 1)` being a multiple of
`s`, for a positive interval `s`. -/
theorem mod_eq_pred_iff {s : Nat} (e : Nat) (hs : 0 < s) :
    e % s = s - 1 ↔ (e + 1) % s = 0 := by
  have hlt : e % s < s := Nat.mod_lt _ hs
  have hadd : (e + 1) % s = (e % s + 1) % s := by
    rw [Nat.add_mod]
    rcases Nat.lt_or_ge 1 s with h1 | h1
    · rw [Nat.mod_eq_of_lt h1]
    · have hs1 : s = 1 := by omega
      subst hs1
      simp [Nat.mod_one]
  constructor
  · intro h
    rw [hadd, h, Nat.sub_add_cancel hs, Nat.mod_self]
  · intro h
    rw [hadd] at h
    have hdvd : s ∣ e % s + 1 := Nat.dvd_of_mod_eq_zero h
    have hle : s ≤ e % s + 1 := Nat.le_of_dvd (Nat.succ_pos _) hdvd
    omega

/-- Closed form of the accumulator fold over a list of batch observations. -/
theorem foldl_accumUpd (os : List Obs) (a : Accum) :
    os.foldl accumUpd a =
      ⟨a.runningLoss + (os.map fun o => o.loss * (o.labels.length : ℚ)).sum,
       a.runningCorrects
         + (os.map fun o => countCorrect (o.probs.map pred2) o.labels).sum,
       a.runningProbs ++ (os.map Obs.probs).flatten,
       a.runningLabels ++ (os.map Obs.labels).flatten⟩ := by
  induction os generalizing a with
  | nil => simp
  | cons o os ih =>
    simp only [List.foldl_cons, ih, List.map_cons, List.sum_cons,
      List.flatten_cons, accumUpd, Accum.mk.injEq]
    refine ⟨by ring, by omega, by simp, by simp⟩

/-- The accumulator component of the batch loop equals the accumulator fold
over the observation trajectory. -/
theorem foldl_batchStep_snd (env : Env ι P O G S) (ph : Phase)
    (bs : List (BatchIn ι)) (st : TState P O G S) (a : Accum) :
    (bs.foldl (batchStep env ph) (st, a)).2
      = (obsTraj env ph st bs).foldl accumUpd a := by
  induction bs generalizing st a with
  | nil => rfl
  | cons b bs ih => simp only [List.foldl_cons, obsTraj, batchStep, ih]

/-- The state component of the batch loop is the fold of the per-batch state
step, independent of the accumulator. -/
theorem foldl_batchStep_fst (env : Env ι P O G S) (ph : Phase)
    (bs : List (BatchIn ι)) (st : TState P O G S) (a : Accum) :
    (bs.foldl (batchStep env ph) (st, a)).1
      = bs.foldl (phaseStateStep env ph) st := by
  induction bs generalizing st a with
  | nil => rfl
  | cons b bs ih => simp only [List.foldl_cons, batchStep, ih]

/-- A validation batch only zeroes gradients: parameters, optimizer state,
scheduler state and the training-mode flag are untouched. -/
theorem foldl_valStateStep (env : Env ι P O G S) (bs : List (BatchIn ι))
    (st : TState P O G S) :
    (bs.foldl (phaseStateStep env .wval) st).params = st.params
      ∧ (bs.foldl (phaseStateStep env .wval) st).opt = st.opt
      ∧ (bs.foldl (phaseStateStep env .wval) st).sched = st.sched
      ∧ (bs.foldl (phaseStateStep env .wval) st).training = st.training := by
  induction bs generalizing st with
  | nil => exact ⟨rfl, rfl, rfl, rfl⟩
  | cons b bs ih => exact ih _

/-- The test batch loop leaves the state exactly unchanged and accumulates
the observations taken at that fixed state. -/
theorem foldl_testBatchStep (env : Env ι P O G S) (bs : List (BatchIn ι))
    (st : TState P O G S) (a : Accum) :
    bs.foldl (testBatchStep env) (st, a)
      = (st, (bs.map (obsOf env st)).foldl accumUpd a) := by
  induction bs generalizing a with
  | nil => rfl
  | cons b bs ih => simp only [List.foldl_cons, testBatchStep, List.map_cons, ih]

/-- Observations do not depend on the gradient component, so the validation
trajectory observes every batch at the initial state. -/
theorem obsOf_valStateStep (env : Env ι P O G S) (st : TState P O G S)
    (b b' : BatchIn ι) :
    obsOf env (valStateStep env st b) b' = obsOf env st b' := rfl

theorem obsTraj_wval (env : Env ι P O G S) (st : TState P O G S)
    (bs : List (BatchIn ι)) :
    obsTraj env .wval st bs = bs.map (obsOf env st) := by
  induction bs generalizing st with
  | nil => rfl
  | cons b bs ih =>
    show obsOf env st b
        :: obsTraj env .wval (phaseStateStep env .wval st b) bs = _
    rw [ih, List.map_cons]
    exact congrArg (List.cons (obsOf env st b))
      (List.map_congr_left fun b' _ => rfl)

/-- The labels of the observation trajectory are the loader's batch labels. -/
theorem obsTraj_labels (env : Env ι P O G S) (ph : Phase)
    (bs : List (BatchIn ι)) (st : TState P O G S) :
    (obsTraj env ph st bs).map Obs.labels = bs.map BatchIn.labels := by
  induction bs generalizing st with
  | nil => rfl
  | cons b bs ih => simp only [obsTraj, List.map_cons, obsOf, ih]

/-- A successful metric computation determines the emitted events. -/
theorem metricEvents_eq_some {phName : String} {e sz : Nat} {a : Accum}
    {evs : List (Event P O)} (h : metricEvents phName e sz a = some evs) :
    ∃ auc, rocAucScore a.runningLabels a.runningProbs = some auc ∧
      evs = save_to_csv e phName a.runningLabels a.runningProbs ::
        scalarEvents phName e (a.runningLoss / (sz : ℚ))
          ((a.runningCorrects : ℚ) / (sz : ℚ)) auc
          (recallScore a.runningLabels (thresholdPreds a.runningProbs) 1)
          (recallScore a.runningLabels (thresholdPreds a.runningProbs) 0) := by
  unfold metricEvents at h
  split at h
  · exact Option.noConfusion h
  · next auc hr => exact ⟨auc, hr, (Option.some.inj h).symm⟩

/-- The metric computation fails exactly when `roc_auc_score` raises. -/
theorem metricEvents_eq_none {phName : String} {e sz : Nat} {a : Accum} :
    (metricEvents phName e sz a : Option (List (Event P O))) = none
      ↔ rocAucScore a.runningLabels a.runningProbs = none := by
  unfold metricEvents
  split <;> simp_all

/-- With only one class among the true labels, `roc_auc_score` raises. -/
theorem rocAucScore_degenerate {labels : List Nat} (scores : List ℚ)
    (c : Nat) (h : ∀ x ∈ labels, x = c) :
    rocAucScore labels scores = none := by
  rcases eq_or_ne c 1 with hc | hc
  · subst hc
    have hneg : (labels.zip scores).filter (fun x => x.1 == 0) = [] :=
      List.filter_eq_nil_iff.mpr fun x hx => by
        have hx1 := h x.1 (List.of_mem_zip hx).1
        simp [hx1]
    simp [rocAucScore, hneg]
  · have hpos : (labels.zip scores).filter (fun x => x.1 == 1) = [] :=
      List.filter_eq_nil_iff.mpr fun x hx => by
        have hx1 := h x.1 (List.of_mem_zip hx).1
        simp [hx1, hc]
    simp [rocAucScore, hpos]

/-- Destructor for a successful phase. -/
theorem runPhase_eq_ok {env : Env ι P O G S} {e : Nat} {ph : Phase}
    {st : TState P O G S} {t : List (Event P O)} {st' : TState P O G S}
    (h : runPhase env e ph st = .ok (t, st')) :
    metricEvents ph.nameStr e (env.splitSize ph)
        ((env.loadBatches e ph).foldl (batchStep env ph)
          (phaseStart env ph st, accum0)).2 = some t
      ∧ st' = ((env.loadBatches e ph).foldl (batchStep env ph)
          (phaseStart env ph st, accum0)).1 := by
  unfold runPhase at h
  split at h
  · exact Except.noConfusion h
  · next evs hm =>
    obtain ⟨h1, h2⟩ := Prod.mk.injEq .. ▸ Except.ok.inj h
    exact ⟨h1 ▸ hm, h2.symm⟩

/-- Destructor for a successful test pass. -/
theorem runTest_eq_ok {env : Env ι P O G S} {e : Nat}
    {st : TState P O G S} {t : List (Event P O)} {st' : TState P O G S}
    (h : runTest env e st = .ok (t, st')) :
    metricEvents "test" e env.testSize
        ((env.testBatches e).foldl (testBatchStep env)
          ({ st with training := false }, accum0)).2 = some t
      ∧ st' = ((env.testBatches e).foldl (testBatchStep env)
          ({ st with training := false }, accum0)).1 := by
  unfold runTest at h
  split at h
  · exact Except.noConfusion h
  · next evs hm =>
    obtain ⟨h1, h2⟩ := Prod.mk.injEq .. ▸ Except.ok.inj h
    exact ⟨h1 ▸ hm, h2.symm⟩

/-- Every event of a successful train/val phase is a non-checkpoint event of
that phase's namespace, stamped with that epoch. -/
theorem runPhase_trace_mem {env : Env ι P O G S} {e : Nat} {ph : Phase}
    {st : TState P O G S} {t : List (Event P O)} {st' : TState P O G S}
    (h : runPhase env e ph st = .ok (t, st')) :
    ∀ ev ∈ t, ev.isCkpt = false ∧ ev.belongsTo ph.nameStr = true
      ∧ ev.logEpoch? = some e := by
  obtain ⟨hm, -⟩ := runPhase_eq_ok h
  obtain ⟨auc, -, ht⟩ := metricEvents_eq_some hm
  subst ht
  intro ev hev
  simp only [save_to_csv, scalarEvents, List.mem_cons,
    List.not_mem_nil, or_false] at hev
  rcases hev with h1 | h1 | h1 | h1 | h1 | h1 <;> subst h1 <;>
    refine ⟨rfl, ?_, rfl⟩ <;>
    simp [Event.belongsTo, phaseTags]

/-- Every event of a successful test pass is a non-checkpoint event of the
`"test"` namespace, stamped with that epoch. -/
theorem runTest_trace_mem {env : Env ι P O G S} {e : Nat}
    {st : TState P O G S} {t : List (Event P O)} {st' : TState P O G S}
    (h : runTest env e st = .ok (t, st')) :
    ∀ ev ∈ t, ev.isCkpt = false ∧ ev.belongsTo "test" = true
      ∧ ev.logEpoch? = some e := by
  obtain ⟨hm, -⟩ := runTest_eq_ok h
  obtain ⟨auc, -, ht⟩ := metricEvents_eq_some hm
  subst ht
  intro ev hev
  simp only [save_to_csv, scalarEvents, List.mem_cons,
    List.not_mem_nil, or_false] at hev
  rcases hev with h1 | h1 | h1 | h1 | h1 | h1 <;> subst h1 <;>
    refine ⟨rfl, ?_, rfl⟩ <;>
    simp [Event.belongsTo, phaseTags]

/-- The namespaces of the three phases are pairwise disjoint: an event of
one namespace does not belong to another. -/
theorem belongsTo_disjoint {ev : Event P O} {n1 n2 : String}
    (h1 : ev.belongsTo n1 = true)
    (hd : ∀ tag, tag ∈ phaseTags n1 → tag ∈ phaseTags n2 → False)
    (hne : (n1 == n2) = false) :
    ev.belongsTo n2 = false := by
  cases ev with
  | scalar tag e v =>
    simp only [Event.belongsTo, decide_eq_true_eq] at h1
    simp only [Event.belongsTo, decide_eq_false_iff_not]
    exact fun h2 => hd tag h1 h2
  | csvDump p e pa hd rows =>
    simp only [Event.belongsTo] at h1 ⊢
    have hp : p = n1 := by simpa using h1
    subst hp
    exact hne
  | ckptSave k p d => rfl

/-- The scalar tags of the train namespace and the test namespace never
coincide. -/
theorem phaseTags_train_test (tag : String)
    (h1 : tag ∈ phaseTags "train") (h2 : tag ∈ phaseTags "test") : False := by
  simp only [phaseTags, List.mem_cons, List.not_mem_nil, or_false] at h1
  rcases h1 with h | h | h | h | h <;> subst h <;> revert h2 <;> decide

/-- The scalar tags of the val namespace and the test namespace never
coincide. -/
theorem phaseTags_val_test (tag : String)
    (h1 : tag ∈ phaseTags "val") (h2 : tag ∈ phaseTags "test") : False := by
  simp only [phaseTags, List.mem_cons, List.not_mem_nil, or_false] at h1
  rcases h1 with h | h | h | h | h <;> subst h <;> revert h2 <;> decide

/-- The scalar tags of the train namespace and the val namespace never
coincide. -/
theorem phaseTags_train_val (tag : String)
    (h1 : tag ∈ phaseTags "train") (h2 : tag ∈ phaseTags "val") : False := by
  simp only [phaseTags, List.mem_cons, List.not_mem_nil, or_false] at h1
  rcases h1 with h | h | h | h | h <;> subst h <;> revert h2 <;> decide

/-- A non-checkpoint event contributes nothing to the checkpoint listing. -/
theorem ckptSaveOf?_eq_none {ev : Event P O} (h : ev.isCkpt = false) :
    ckptSaveOf? ev = none := by
  cases ev with
  | scalar tag e v => rfl
  | csvDump p e pa hdr rows => rfl
  | ckptSave k p d => exact absurd h (by simp [Event.isCkpt])

/-- Checkpoint listings distribute over trace concatenation. -/
theorem ckptSavesOf_append (a b : List (Event P O)) :
    ckptSavesOf (a ++ b) = ckptSavesOf a ++ ckptSavesOf b :=
  List.filterMap_append ..

/-- The checkpoint listing of a checkpoint block: empty, or the single write
keyed by the epoch with contents stamped `epoch + 1`. -/
theorem ckptSavesOf_ckptEvents (cfg : Cfg) (e : Nat) (stc : TState P O G S) :
    ckptSavesOf (ckptEvents cfg e stc) = []
      ∨ (ckptSavesOf (ckptEvents cfg e stc)
          = [(e, ⟨e + 1, stc.params, stc.opt⟩)]
        ∧ e % cfg.saveEpoch = cfg.saveEpoch - 1) := by
  rw [ckptEvents]
  split
  · next hsp => exact .inr ⟨rfl, hsp⟩
  · exact .inl rfl

/-- Events of a checkpoint block are checkpoint writes of that epoch with
the path keyed by the epoch and contents stamped `epoch + 1`. -/
theorem mem_ckptEvents {cfg : Cfg} {e : Nat} {st : TState P O G S}
    {ev : Event P O} (h : ev ∈ ckptEvents cfg e st) :
    ev = .ckptSave e (ckptPath e) ⟨e + 1, st.params, st.opt⟩ := by
  unfold ckptEvents at h
  split at h
  · simpa using h
  · simp at h

/-- Exhaustive case analysis of one epoch iteration. -/
theorem runEpoch_cases (env : Env ι P O G S) (cfg : Cfg) (e : Nat)
    (st : TState P O G S) :
    (∃ er, runPhase env e .train st = .error er
        ∧ runEpoch env cfg e st = .fatal [] er)
    ∨ (∃ t1 st1 er, runPhase env e .train st = .ok (t1, st1)
        ∧ runPhase env e .wval st1 = .error er
        ∧ runEpoch env cfg e st = .fatal t1 er)
    ∨ (∃ t1 st1 t2 st2, runPhase env e .train st = .ok (t1, st1)
        ∧ runPhase env e .wval st1 = .ok (t2, st2)
        ∧ (((cfg.useTest = true ∧ e % cfg.testInterval = cfg.testInterval - 1)
              ∧ ((∃ er, runTest env e st2 = .error er
                    ∧ runEpoch env cfg e st
                      = .fatal (t1 ++ t2 ++ ckptEvents cfg e st2) er)
                  ∨ (∃ t4 st4, runTest env e st2 = .ok (t4, st4)
                      ∧ runEpoch env cfg e st
                        = .ok (t1 ++ t2 ++ ckptEvents cfg e st2 ++ t4) st4)))
            ∨ (¬(cfg.useTest = true
                  ∧ e % cfg.testInterval = cfg.testInterval - 1)
                ∧ runEpoch env cfg e st
                  = .ok (t1 ++ t2 ++ ckptEvents cfg e st2) st2))) := by
  cases htr : runPhase env e .train st with
  | error er => exact .inl ⟨er, rfl, by rw [runEpoch, htr]⟩
  | ok p =>
    obtain ⟨t1, st1⟩ := p
    cases hv : runPhase env e .wval st1 with
    | error er =>
      refine .inr (.inl ⟨t1, st1, er, rfl, hv, ?_⟩)
      rw [runEpoch, htr]
      dsimp only
      rw [hv]
    | ok q =>
      obtain ⟨t2, st2⟩ := q
      by_cases hT : cfg.useTest = true
          ∧ e % cfg.testInterval = cfg.testInterval - 1
      · cases hts : runTest env e st2 with
        | error er =>
          refine .inr (.inr ⟨t1, st1, t2, st2, rfl, hv,
            .inl ⟨hT, .inl ⟨er, hts, ?_⟩⟩⟩)
          rw [runEpoch, htr]
          dsimp only
          rw [hv]
          dsimp only
          rw [if_pos hT, hts]
        | ok r =>
          obtain ⟨t4, st4⟩ := r
          refine .inr (.inr ⟨t1, st1, t2, st2, rfl, hv,
            .inl ⟨hT, .inr ⟨t4, st4, hts, ?_⟩⟩⟩)
          rw [runEpoch, htr]
          dsimp only
          rw [hv]
          dsimp only
          rw [if_pos hT, hts]
      · refine .inr (.inr ⟨t1, st1, t2, st2, rfl, hv, .inr ⟨hT, ?_⟩⟩)
        rw [runEpoch, htr]
        dsimp only
        rw [hv]
        dsimp only
        rw [if_neg hT]

/-- Every event of an epoch's trace is either a checkpoint write of that
epoch — keyed by the epoch, named by the epoch, storing `epoch + 1`, and
present only when the snapshot condition holds — or a scalar/CSV record
stamped with that epoch. -/
theorem runEpoch_trace_classify (env : Env ι P O G S) (cfg : Cfg) (e : Nat)
    (st : TState P O G S) :
    ∀ ev ∈ (runEpoch env cfg e st).trace,
      (∃ stc : TState P O G S,
          ev = .ckptSave e (ckptPath e) ⟨e + 1, stc.params, stc.opt⟩
            ∧ e % cfg.saveEpoch = cfg.saveEpoch - 1)
        ∨ (ev.isCkpt = false ∧ ev.logEpoch? = some e) := by
  have hck : ∀ stc : TState P O G S, ∀ ev ∈ ckptEvents cfg e stc,
      (∃ stc' : TState P O G S,
        ev = .ckptSave e (ckptPath e) ⟨e + 1, stc'.params, stc'.opt⟩
          ∧ e % cfg.saveEpoch = cfg.saveEpoch - 1)
      ∨ (ev.isCkpt = false ∧ ev.logEpoch? = some e) := by
    intro stc ev hev
    have hsp : e % cfg.saveEpoch = cfg.saveEpoch - 1 := by
      by_contra hne
      rw [ckptEvents, if_neg hne] at hev
      simp at hev
    exact .inl ⟨stc, mem_ckptEvents hev, hsp⟩
  rcases runEpoch_cases env cfg e st with
    ⟨er, htr, heq⟩ | ⟨t1, st1, er, htr, hv, heq⟩ |
    ⟨t1, st1, t2, st2, htr, hv, hrest⟩
  · rw [heq]; intro ev hev; simp [RunResult.trace] at hev
  · rw [heq]
    intro ev hev
    have h1 := runPhase_trace_mem htr ev hev
    exact .inr ⟨h1.1, h1.2.2⟩
  · have h1 := runPhase_trace_mem htr
    have h2 := runPhase_trace_mem hv
    rcases hrest with ⟨-, ⟨er, hts, heq⟩ | ⟨t4, st4, hts, heq⟩⟩ | ⟨-, heq⟩
    · rw [heq]
      intro ev hev
      simp only [RunResult.trace, List.mem_append] at hev
      rcases hev with (hev | hev) | hev
      · exact .inr ⟨(h1 ev hev).1, (h1 ev hev).2.2⟩
      · exact .inr ⟨(h2 ev hev).1, (h2 ev hev).2.2⟩
      · exact hck st2 ev hev
    · rw [heq]
      have h4 := runTest_trace_mem hts
      intro ev hev
      simp only [RunResult.trace, List.mem_append] at hev
      rcases hev with ((hev | hev) | hev) | hev
      · exact .inr ⟨(h1 ev hev).1, (h1 ev hev).2.2⟩
      · exact .inr ⟨(h2 ev hev).1, (h2 ev hev).2.2⟩
      · exact hck st2 ev hev
      · exact .inr ⟨(h4 ev hev).1, (h4 ev hev).2.2⟩
    · rw [heq]
      intro ev hev
      simp only [RunResult.trace, List.mem_append] at hev
      rcases hev with (hev | hev) | hev
      · exact .inr ⟨(h1 ev hev).1, (h1 ev hev).2.2⟩
      · exact .inr ⟨(h2 ev hev).1, (h2 ev hev).2.2⟩
      · exact hck st2 ev hev

/-- Every event of the epoch loop's trace occurs in the trace of one of the
listed epochs. -/
theorem mem_runEpochs_trace {env : Env ι P O G S} {cfg : Cfg} {l : List Nat}
    {st : TState P O G S} {ev : Event P O}
    (h : ev ∈ (runEpochs env cfg l st).trace) :
    ∃ e ∈ l, ∃ st', ev ∈ (runEpoch env cfg e st').trace := by
  induction l generalizing st with
  | nil => simp [runEpochs, RunResult.trace] at h
  | cons e es ih =>
    rw [runEpochs] at h
    cases he : runEpoch env cfg e st with
    | fatal t er =>
      rw [he] at h
      dsimp only [RunResult.trace] at h
      exact ⟨e, by simp, st, by rw [he]; exact h⟩
    | ok t st' =>
      rw [he] at h
      dsimp only at h
      cases hr : runEpochs env cfg es st' with
      | fatal t' er =>
        rw [hr] at h
        dsimp only [RunResult.trace] at h
        rcases List.mem_append.mp h with hm | hm
        · exact ⟨e, by simp, st, by rw [he]; exact hm⟩
        · obtain ⟨e', he', st'', hmem⟩ := ih (show _ ∈ (runEpochs env cfg es st').trace by rw [hr]; exact hm)
          exact ⟨e', by simp [he'], st'', hmem⟩
      | ok t' st'' =>
        rw [hr] at h
        dsimp only [RunResult.trace] at h
        rcases List.mem_append.mp h with hm | hm
        · exact ⟨e, by simp, st, by rw [he]; exact hm⟩
        · obtain ⟨e', he', stq, hmem⟩ := ih (show _ ∈ (runEpochs env cfg es st').trace by rw [hr]; exact hm)
          exact ⟨e', by simp [he'], stq, hmem⟩

/-- The accumulated label list of a train/val phase is the concatenation of
the loader's batch labels. -/
theorem phase_runningLabels (env : Env ι P O G S) (e : Nat) (ph : Phase)
    (st : TState P O G S) :
    ((env.loadBatches e ph).foldl (batchStep env ph)
        (phaseStart env ph st, accum0)).2.runningLabels
      = phaseLabels env e ph := by
  rw [foldl_batchStep_snd, foldl_accumUpd]
  simp [accum0, phaseLabels, obsTraj_labels]

/-- The accumulated label list of the test pass is the concatenation of the
test loader's batch labels. -/
theorem test_runningLabels (env : Env ι P O G S) (e : Nat)
    (st : TState P O G S) :
    ((env.testBatches e).foldl (testBatchStep env)
        ({ st with training := false }, accum0)).2.runningLabels
      = testLabels env e := by
  rw [foldl_testBatchStep, foldl_accumUpd]
  simp only [accum0, List.nil_append, testLabels]
  rw [List.map_map]
  rfl

/-- A degenerate train/val split makes `roc_auc_score` raise, so the phase
fails with the AUC error regardless of the incoming state. -/
theorem runPhase_error_of_degenerate {env : Env ι P O G S} {e : Nat}
    {ph : Phase} (hd : degenerateLabels (phaseLabels env e ph))
    (st : TState P O G S) :
    runPhase env e ph st = .error (.aucUndefined e ph.nameStr) := by
  obtain ⟨-, c, hc⟩ := hd
  have hauc : rocAucScore
      ((env.loadBatches e ph).foldl (batchStep env ph)
        (phaseStart env ph st, accum0)).2.runningLabels
      ((env.loadBatches e ph).foldl (batchStep env ph)
        (phaseStart env ph st, accum0)).2.runningProbs = none := by
    apply rocAucScore_degenerate _ c
    rw [phase_runningLabels]
    exact hc
  have hm : (metricEvents ph.nameStr e (env.splitSize ph)
      ((env.loadBatches e ph).foldl (batchStep env ph)
        (phaseStart env ph st, accum0)).2 : Option (List (Event P O))) = none :=
    metricEvents_eq_none.mpr hauc
  rw [runPhase, hm]

/-- A degenerate test split makes the test pass fail with the AUC error
regardless of the incoming state. -/
theorem runTest_error_of_degenerate {env : Env ι P O G S} {e : Nat}
    (hd : degenerateLabels (testLabels env e)) (st : TState P O G S) :
    runTest env e st = .error (.aucUndefined e "test") := by
  obtain ⟨-, c, hc⟩ := hd
  have hauc : rocAucScore
      ((env.testBatches e).foldl (testBatchStep env)
        ({ st with training := false }, accum0)).2.runningLabels
      ((env.testBatches e).foldl (testBatchStep env)
        ({ st with training := false }, accum0)).2.runningProbs = none := by
    apply rocAucScore_degenerate _ c
    rw [test_runningLabels]
    exact hc
  have hm : (metricEvents "test" e env.testSize
      ((env.testBatches e).foldl (testBatchStep env)
        ({ st with training := false }, accum0)).2
        : Option (List (Event P O))) = none :=
    metricEvents_eq_none.mpr hauc
  rw [runTest, hm]

/-- If one listed epoch is fatal from every state, the epoch loop is fatal. -/
theorem runEpochs_fatal_of_epoch_fatal {env : Env ι P O G S} {cfg : Cfg}
    {e : Nat} (hf : ∀ st : TState P O G S,
      (runEpoch env cfg e st).isFatal = true)
    {l : List Nat} (hl : e ∈ l) (st : TState P O G S) :
    (runEpochs env cfg l st).isFatal = true := by
  induction l generalizing st with
  | nil => simp at hl
  | cons e' es ih =>
    rw [runEpochs]
    cases he : runEpoch env cfg e' st with
    | fatal t er => rfl
    | ok t st' =>
      rcases List.mem_cons.mp hl with h | h
      · subst h
        have := hf st
        rw [he] at this
        simp [RunResult.isFatal] at this
      · have := ih h st'
        dsimp only
        cases hr : runEpochs env cfg es st' with
        | fatal t' er => rfl
        | ok t' st'' =>
          rw [hr] at this
          simp [RunResult.isFatal] at this

/-- The checkpoint listing of a successful train/val phase trace is empty. -/
theorem ckptSavesOf_runPhase {env : Env ι P O G S} {e : Nat} {ph : Phase}
    {st : TState P O G S} {t : List (Event P O)} {st' : TState P O G S}
    (h : runPhase env e ph st = .ok (t, st')) : ckptSavesOf t = [] := by
  rw [ckptSavesOf, List.filterMap_eq_nil_iff]
  intro ev hev
  exact ckptSaveOf?_eq_none (runPhase_trace_mem h ev hev).1

/-- The checkpoint listing of a successful test pass trace is empty. -/
theorem ckptSavesOf_runTest {env : Env ι P O G S} {e : Nat}
    {st : TState P O G S} {t : List (Event P O)} {st' : TState P O G S}
    (h : runTest env e st = .ok (t, st')) : ckptSavesOf t = [] := by
  rw [ckptSavesOf, List.filterMap_eq_nil_iff]
  intro ev hev
  exact ckptSaveOf?_eq_none (runTest_trace_mem h ev hev).1

/-- The checkpoint listing of one epoch: empty, or the single write keyed by
the epoch with contents stamped `epoch + 1`, present exactly under the
snapshot condition. -/
theorem ckptSavesOf_runEpoch (env : Env ι P O G S) (cfg : Cfg) (e : Nat)
    (st : TState P O G S) :
    ckptSavesOf (runEpoch env cfg e st).trace = []
      ∨ (∃ stc : TState P O G S,
          ckptSavesOf (runEpoch env cfg e st).trace
            = [(e, ⟨e + 1, stc.params, stc.opt⟩)]
          ∧ e % cfg.saveEpoch = cfg.saveEpoch - 1) := by
  rcases runEpoch_cases env cfg e st with
    ⟨er, htr, heq⟩ | ⟨t1, st1, er, htr, hv, heq⟩ |
    ⟨t1, st1, t2, st2, htr, hv, hrest⟩
  · rw [heq]; left; rfl
  · rw [heq]
    exact .inl (ckptSavesOf_runPhase htr)
  · have hc1 := ckptSavesOf_runPhase htr
    have hc2 := ckptSavesOf_runPhase hv
    rcases hrest with ⟨-, ⟨er, hts, heq⟩ | ⟨t4, st4, hts, heq⟩⟩ | ⟨-, heq⟩
    · rw [heq]
      dsimp only [RunResult.trace]
      rw [ckptSavesOf_append, ckptSavesOf_append, hc1, hc2]
      rcases ckptSavesOf_ckptEvents cfg e st2 with h3 | ⟨h3, hsp⟩
      · rw [h3]; exact .inl rfl
      · rw [h3]; exact .inr ⟨st2, rfl, hsp⟩
    · rw [heq]
      dsimp only [RunResult.trace]
      have hc4 := ckptSavesOf_runTest hts
      rw [ckptSavesOf_append, ckptSavesOf_append, ckptSavesOf_append,
        hc1, hc2, hc4]
      rcases ckptSavesOf_ckptEvents cfg e st2 with h3 | ⟨h3, hsp⟩
      · rw [h3]; exact .inl rfl
      · rw [h3]; exact .inr ⟨st2, rfl, hsp⟩
    · rw [heq]
      dsimp only [RunResult.trace]
      rw [ckptSavesOf_append, ckptSavesOf_append, hc1, hc2]
      rcases ckptSavesOf_ckptEvents cfg e st2 with h3 | ⟨h3, hsp⟩
      · rw [h3]; exact .inl rfl
      · rw [h3]; exact .inr ⟨st2, rfl, hsp⟩

/-- All checkpoint keys written during one epoch equal that epoch. -/
theorem ckptKeysOf_runEpoch_sub (env : Env ι P O G S) (cfg : Cfg) (e : Nat)
    (st : TState P O G S) :
    ∀ k ∈ ckptKeysOf (runEpoch env cfg e st).trace, k = e := by
  intro k hk
  rcases ckptSavesOf_runEpoch env cfg e st with h | ⟨stc, h, -⟩ <;>
    rw [ckptKeysOf, h] at hk
  · simp at hk
  · simpa using hk

/-- Case analysis of one step of the epoch loop. -/
theorem runEpochs_cons_cases (env : Env ι P O G S) (cfg : Cfg) (e : Nat)
    (es : List Nat) (st : TState P O G S) :
    (∃ t er, runEpoch env cfg e st = .fatal t er
        ∧ runEpochs env cfg (e :: es) st = .fatal t er)
    ∨ (∃ t st', runEpoch env cfg e st = .ok t st'
        ∧ (runEpochs env cfg (e :: es) st).trace
            = t ++ (runEpochs env cfg es st').trace
        ∧ (runEpochs env cfg (e :: es) st).isFatal
            = (runEpochs env cfg es st').isFatal) := by
  cases he : runEpoch env cfg e st with
  | fatal t er => exact .inl ⟨t, er, rfl, by rw [runEpochs, he]⟩
  | ok t st' =>
    refine .inr ⟨t, st', rfl, ?_, ?_⟩
    · rw [runEpochs, he]
      dsimp only
      cases hr : runEpochs env cfg es st' <;> rfl
    · rw [runEpochs, he]
      dsimp only
      cases hr : runEpochs env cfg es st' <;> rfl

/-- All checkpoint keys written by the epoch loop come from the epoch list. -/
theorem ckptKeysOf_runEpochs_sub (env : Env ι P O G S) (cfg : Cfg) :
    ∀ (l : List Nat) (st : TState P O G S),
      ∀ k ∈ ckptKeysOf (runEpochs env cfg l st).trace, k ∈ l := by
  intro l
  induction l with
  | nil => intro st k hk; simp [runEpochs, RunResult.trace, ckptKeysOf,
      ckptSavesOf] at hk
  | cons e es ih =>
    intro st k hk
    rcases runEpochs_cons_cases env cfg e es st with
      ⟨t, er, he, heq⟩ | ⟨t, st', he, heq, -⟩
    · rw [heq] at hk
      have hfe : (RunResult.fatal t er : RunResult P O G S).trace
          = (runEpoch env cfg e st).trace := by rw [he]
      rw [hfe] at hk
      exact List.mem_cons.mpr (.inl (ckptKeysOf_runEpoch_sub env cfg e st k hk))
    · rw [ckptKeysOf, heq, ckptSavesOf_append, List.map_append] at hk
      rcases List.mem_append.mp hk with hm | hm
      · have ht : t = (runEpoch env cfg e st).trace := by rw [he]; rfl
        rw [ht] at hm
        exact List.mem_cons.mpr (.inl (ckptKeysOf_runEpoch_sub env cfg e st k hm))
      · exact List.mem_cons.mpr (.inr (ih st' k hm))

/-- With a duplicate-free epoch list, the checkpoint keys written by the
epoch loop are pairwise distinct. -/
theorem ckptKeysOf_runEpochs_nodup (env : Env ι P O G S) (cfg : Cfg) :
    ∀ (l : List Nat), l.Nodup → ∀ st : TState P O G S,
      (ckptKeysOf (runEpochs env cfg l st).trace).Nodup := by
  intro l
  induction l with
  | nil => intro _ st; simp [runEpochs, RunResult.trace, ckptKeysOf,
      ckptSavesOf]
  | cons e es ih =>
    intro hnd st
    have hkey1 : ∀ st0 : TState P O G S,
        (ckptKeysOf (runEpoch env cfg e st0).trace).Nodup := by
      intro st0
      rcases ckptSavesOf_runEpoch env cfg e st0 with h | ⟨stc, h, -⟩ <;>
        rw [ckptKeysOf, h] <;> simp
    rcases runEpochs_cons_cases env cfg e es st with
      ⟨t, er, he, heq⟩ | ⟨t, st', he, heq, -⟩
    · rw [heq]
      have hfe : (RunResult.fatal t er : RunResult P O G S).trace
          = (runEpoch env cfg e st).trace := by rw [he]
      rw [ckptKeysOf, hfe, ← ckptKeysOf]
      exact hkey1 st
    · rw [ckptKeysOf, heq, ckptSavesOf_append, List.map_append]
      have ht : t = (runEpoch env cfg e st).trace := by rw [he]; rfl
      refine List.Nodup.append ?_ ?_ ?_
      · rw [ht]
        exact hkey1 st
      · exact ih (List.nodup_cons.mp hnd).2 st'
      · intro k hk1 hk2
        rw [ht] at hk1
        have hke : k = e := ckptKeysOf_runEpoch_sub env cfg e st k hk1
        have hkes : k ∈ es := ckptKeysOf_runEpochs_sub env cfg es st' k hk2
        exact (List.nodup_cons.mp hnd).1 (hke ▸ hkes)

/-- With `resume_epoch = 0` the run trains from scratch over
`range(0, num_epochs)`. -/
theorem train_model_fresh {env : Env ι P O G S} {cfg : Cfg}
    (h0 : cfg.resumeEpoch = 0) :
    train_model env cfg = runEpochs env cfg (epochList cfg) env.initState := by
  rw [train_model, if_pos h0]

/-- With a nonzero resume epoch and no checkpoint file at the path keyed by
`resume_epoch - 1`, the run fails before any epoch with the load error. -/
theorem train_model_resume_missing {env : Env ι P O G S} {cfg : Cfg}
    (h0 : ¬ cfg.resumeEpoch = 0)
    (hfs : env.fsload (ckptPath (cfg.resumeEpoch - 1)) = none) :
    train_model env cfg
      = .fatal [] (.resumeMissing (ckptPath (cfg.resumeEpoch - 1))) := by
  rw [train_model, if_neg h0, hfs]

/-- With a nonzero resume epoch and a checkpoint whose `state_dict` does not
match the model's parameter shapes, the run fails before any epoch. -/
theorem train_model_resume_incompatible {env : Env ι P O G S} {cfg : Cfg}
    {d : Ckpt P O} (h0 : ¬ cfg.resumeEpoch = 0)
    (hfs : env.fsload (ckptPath (cfg.resumeEpoch - 1)) = some d)
    (hc : env.compatible d.state_dict = false) :
    train_model env cfg
      = .fatal [] (.resumeIncompatible (ckptPath (cfg.resumeEpoch - 1))) := by
  rw [train_model, if_neg h0, hfs]
  dsimp only
  rw [hc]
  rfl

/-- With a nonzero resume epoch and a compatible checkpoint at the path
keyed by `resume_epoch - 1`, the run loads its parameters and optimizer
state before any epoch and then loops over
`range(resume_epoch, num_epochs)`. -/
theorem train_model_resume_ok {env : Env ι P O G S} {cfg : Cfg}
    {d : Ckpt P O} (h0 : ¬ cfg.resumeEpoch = 0)
    (hfs : env.fsload (ckptPath (cfg.resumeEpoch - 1)) = some d)
    (hc : env.compatible d.state_dict = true) :
    train_model env cfg = runEpochs env cfg (epochList cfg)
      { env.initState with params := d.state_dict, opt := d.opt_dict } := by
  rw [train_model, if_neg h0, hfs]
  dsimp only
  rw [hc]
  rfl

/-- Every epoch stamped on a scalar/CSV record of the epoch loop's trace is
one of the listed epochs. -/
theorem loggedEpochs_runEpochs_sub (env : Env ι P O G S) (cfg : Cfg)
    (l : List Nat) (st : TState P O G S) :
    ∀ x ∈ loggedEpochsOf (runEpochs env cfg l st).trace, x ∈ l := by
  intro x hx
  rw [loggedEpochsOf] at hx
  obtain ⟨ev, hev, hx⟩ := List.mem_filterMap.mp hx
  obtain ⟨e, hel, st', hmem⟩ := mem_runEpochs_trace hev
  rcases runEpoch_trace_classify env cfg e st' ev hmem with
    ⟨stc, hevE, -⟩ | ⟨-, hlog⟩
  · subst hevE; simp [Event.logEpoch?] at hx
  · rw [hlog] at hx
    have := Option.some.inj hx
    exact this ▸ hel

/-- With test evaluation disabled, no event of an epoch belongs to the test
namespace. -/
theorem runEpoch_no_test (env : Env ι P O G S) (cfg : Cfg) (e : Nat)
    (st : TState P O G S) (hT : cfg.useTest = false) :
    ∀ ev ∈ (runEpoch env cfg e st).trace, ev.belongsTo "test" = false := by
  rcases runEpoch_cases env cfg e st with
    ⟨er, htr, heq⟩ | ⟨t1, st1, er, htr, hv, heq⟩ |
    ⟨t1, st1, t2, st2, htr, hv, hrest⟩
  · rw [heq]; intro ev hev; simp [RunResult.trace] at hev
  · rw [heq]
    intro ev hev
    exact belongsTo_disjoint (runPhase_trace_mem htr ev hev).2.1
      phaseTags_train_test (by decide)
  · rcases hrest with ⟨⟨hT', -⟩, -⟩ | ⟨-, heq⟩
    · rw [hT] at hT'; exact absurd hT' (by simp)
    · rw [heq]
      intro ev hev
      simp only [RunResult.trace, List.mem_append] at hev
      rcases hev with (hev | hev) | hev
      · exact belongsTo_disjoint (runPhase_trace_mem htr ev hev).2.1
          phaseTags_train_test (by decide)
      · exact belongsTo_disjoint (runPhase_trace_mem hv ev hev).2.1
          phaseTags_val_test (by decide)
      · rw [mem_ckptEvents hev]; rfl

/-- A successful validation phase leaves model parameters and optimizer
state untouched. -/
theorem runPhase_wval_state {env : Env ι P O G S} {e : Nat}
    {st : TState P O G S} {t : List (Event P O)} {st' : TState P O G S}
    (h : runPhase env e .wval st = .ok (t, st')) :
    st'.params = st.params ∧ st'.opt = st.opt := by
  obtain ⟨-, h2⟩ := runPhase_eq_ok h
  rw [h2, foldl_batchStep_fst]
  have hp := foldl_valStateStep env (env.loadBatches e .wval)
    (phaseStart env .wval st)
  exact ⟨hp.1, hp.2.1⟩

/-- A successful test pass leaves the entire trainable state untouched
except for the training-mode flag set by `model.eval()`. -/
theorem runTest_state {env : Env ι P O G S} {e : Nat}
    {st : TState P O G S} {t : List (Event P O)} {st' : TState P O G S}
    (h : runTest env e st = .ok (t, st')) :
    st' = { st with training := false } := by
  obtain ⟨-, h2⟩ := runTest_eq_ok h
  rw [h2, foldl_testBatchStep]

/-- Closed form of the end-of-phase accumulators in terms of the per-batch
observation trajectory. -/
theorem phase_accum (env : Env ι P O G S) (e : Nat) (ph : Phase)
    (st : TState P O G S) :
    ((env.loadBatches e ph).foldl (batchStep env ph)
        (phaseStart env ph st, accum0)).2
      = ⟨((obsTraj env ph (phaseStart env ph st) (env.loadBatches e ph)).map
            fun o => o.loss * (o.labels.length : ℚ)).sum,
         ((obsTraj env ph (phaseStart env ph st) (env.loadBatches e ph)).map
            fun o => countCorrect (o.probs.map pred2) o.labels).sum,
         ((obsTraj env ph (phaseStart env ph st) (env.loadBatches e ph)).map
            Obs.probs).flatten,
         ((obsTraj env ph (phaseStart env ph st) (env.loadBatches e ph)).map
            Obs.labels).flatten⟩ := by
  rw [foldl_batchStep_snd, foldl_accumUpd]
  simp [accum0]

/-- Closed form of the end-of-test-pass accumulators: the test loop observes
every batch at the fixed incoming state. -/
theorem test_accum (env : Env ι P O G S) (e : Nat) (st : TState P O G S) :
    ((env.testBatches e).foldl (testBatchStep env)
        ({ st with training := false }, accum0)).2
      = ⟨(((env.testBatches e).map (obsOf env { st with training := false })).map
            fun o => o.loss * (o.labels.length : ℚ)).sum,
         (((env.testBatches e).map (obsOf env { st with training := false })).map
            fun o => countCorrect (o.probs.map pred2) o.labels).sum,
         (((env.testBatches e).map (obsOf env { st with training := false })).map
            Obs.probs).flatten,
         (((env.testBatches e).map (obsOf env { st with training := false })).map
            Obs.labels).flatten⟩ := by
  rw [foldl_testBatchStep, foldl_accumUpd]
  simp [accum0]

/-- Per-sample two-class argmax prediction agrees with the fixed `0.5`
threshold on the positive-class probability, across a zipped row list. -/
theorem countCorrect_threshold (labels : List Nat) (probs : List ℚ) :
    countCorrect (probs.map pred2) labels
      = (labels.zip probs).countP fun r =>
          (if (1 : ℚ) / 2 < r.2 then 1 else 0) == r.1 := by
  induction labels generalizing probs with
  | nil => cases probs <;> rfl
  | cons l ls ih =>
    cases probs with
    | nil => rfl
    | cons p ps =>
      simp only [countCorrect, List.map_cons, List.zip_cons_cons,
        List.countP_cons] at ih ⊢
      rw [ih, pred2_eq_threshold]

/-- Zipping the flattened label and probability lists agrees with flattening
the per-batch zips, when each batch yields one probability per label. -/
theorem zip_flatten_obs (os : List Obs)
    (h : ∀ o ∈ os, o.probs.length = o.labels.length) :
    ((os.map Obs.labels).flatten).zip ((os.map Obs.probs).flatten)
      = (os.map fun o => o.labels.zip o.probs).flatten := by
  induction os with
  | nil => rfl
  | cons o os ih =>
    simp only [List.map_cons, List.flatten_cons]
    rw [List.zip_append (h o (by simp)).symm,
      ih fun o' ho' => h o' (by simp [ho'])]

/-- Two scalar tags of the same phase namespace with different metric
suffixes are different strings. -/
theorem tag_suffix_ne (x s1 s2 : String) (hne : ¬ s1.data = s2.data) :
    ¬ ("data/" ++ x ++ s1 = "data/" ++ x ++ s2) := by
  intro h
  apply hne
  have hd : ("data/" ++ x).data ++ s1.data = ("data/" ++ x).data ++ s2.data :=
    congrArg String.data h
  exact List.append_cancel_left hd

/-- Every event of a run's trace occurs in the epoch loop from the initial
(possibly checkpoint-loaded) state. -/
theorem trace_train_model_sub {env : Env ι P O G S} {cfg : Cfg}
    {ev : Event P O} (h : ev ∈ (train_model env cfg).trace) :
    ∃ st0, ev ∈ (runEpochs env cfg (epochList cfg) st0).trace := by
  by_cases h0 : cfg.resumeEpoch = 0
  · exact ⟨env.initState, by rw [train_model_fresh h0] at h; exact h⟩
  · cases hfs : env.fsload (ckptPath (cfg.resumeEpoch - 1)) with
    | none =>
      rw [train_model_resume_missing h0 hfs] at h
      simp [RunResult.trace] at h
    | some d =>
      cases hc : env.compatible d.state_dict with
      | false =>
        rw [train_model_resume_incompatible h0 hfs hc] at h
        simp [RunResult.trace] at h
      | true =>
        exact ⟨_, by rw [train_model_resume_ok h0 hfs hc] at h; exact h⟩

/-- Every checkpoint write of a run is named by its epoch key, stores
`key + 1` as the epoch field, and happens at a listed epoch satisfying the
snapshot condition. -/
theorem ckptSave_mem_run {env : Env ι P O G S} {cfg : Cfg} {k : Nat}
    {p : String} {d : Ckpt P O}
    (h : Event.ckptSave k p d ∈ (train_model env cfg).trace) :
    p = ckptPath k ∧ d.epoch = k + 1
      ∧ k % cfg.saveEpoch = cfg.saveEpoch - 1 ∧ k ∈ epochList cfg := by
  obtain ⟨st0, h⟩ := trace_train_model_sub h
  obtain ⟨e, hel, st', hmem⟩ := mem_runEpochs_trace h
  rcases runEpoch_trace_classify env cfg e st' _ hmem with
    ⟨stc, hevE, hsp⟩ | ⟨hck, -⟩
  · rw [Event.ckptSave.injEq] at hevE
    obtain ⟨hk, hp, hd⟩ := hevE
    subst hk
    exact ⟨hp, by rw [hd], hsp, hel⟩
  · simp [Event.isCkpt] at hck

/-- A degenerate split anywhere in an epoch makes that epoch fatal from any
state. -/
theorem runEpoch_fatal_of_degenerate {env : Env ι P O G S} {cfg : Cfg}
    {e : Nat}
    (hd : degenerateLabels (phaseLabels env e .train)
        ∨ degenerateLabels (phaseLabels env e .wval)
        ∨ (cfg.useTest = true ∧ e % cfg.testInterval = cfg.testInterval - 1
            ∧ degenerateLabels (testLabels env e))) :
    ∀ st : TState P O G S, (runEpoch env cfg e st).isFatal = true := by
  intro st
  rcases runEpoch_cases env cfg e st with
    ⟨er, htr, heq⟩ | ⟨t1, st1, er, htr, hv, heq⟩ |
    ⟨t1, st1, t2, st2, htr, hv, hrest⟩
  · rw [heq]; rfl
  · rw [heq]; rfl
  · rcases hd with hdg | hdg | ⟨hu, hi, hdg⟩
    · rw [runPhase_error_of_degenerate hdg st] at htr
      exact Except.noConfusion htr
    · rw [runPhase_error_of_degenerate hdg st1] at hv
      exact Except.noConfusion hv
    · rcases hrest with ⟨-, ⟨er, hts, heq⟩ | ⟨t4, st4, hts, heq⟩⟩ | ⟨hT, heq⟩
      · rw [heq]; rfl
      · rw [runTest_error_of_degenerate hdg st2] at hts
        exact Except.noConfusion hts
      · exact absurd ⟨hu, hi⟩ hT

/-- The epoch list of a run has no duplicates. -/
theorem epochList_nodup (cfg : Cfg) : (epochList cfg).Nodup :=
  List.nodup_range' _ _

/-- A successful train/val phase dumps the CSV file with the header row and
the flattened per-sample (label, probability) rows in encounter order. -/
theorem csv_mem_runPhase {env : Env ι P O G S} {e : Nat} {ph : Phase}
    {st : TState P O G S} {t : List (Event P O)} {st' : TState P O G S}
    (hok : runPhase env e ph st = .ok (t, st'))
    (hlen : ∀ o ∈ obsTraj env ph (phaseStart env ph st)
        (env.loadBatches e ph), o.probs.length = o.labels.length) :
    Event.csvDump ph.nameStr e (csvPath ph.nameStr e)
        ["TrueLabel", "Probability"]
        (((obsTraj env ph (phaseStart env ph st)
            (env.loadBatches e ph)).map
          fun o => o.labels.zip o.probs).flatten) ∈ t := by
  obtain ⟨hm, -⟩ := runPhase_eq_ok hok
  obtain ⟨auc, -, ht⟩ := metricEvents_eq_some hm
  subst ht
  have hzip := zip_flatten_obs _ hlen
  rw [phase_accum]
  simp only [save_to_csv, scalarEvents, List.mem_cons]
  left
  rw [hzip]

end Lemmas

section Claims

variable {ι P O G S : Type}

/-- Claim C1 (amended): when the resume epoch `r` is non-zero, `run()`
loads model parameters and optimizer state — before any epoch runs — from
the checkpoint file named by `r - 1` (not by `r` itself); if that file is
absent or its `state_dict` does not match the current model's parameter
shapes, the run fails fatally before any epoch runs, with an empty trace. -/
theorem c1_resume_load (env : Env ι P O G S) (cfg : Cfg)
    (h0 : ¬ cfg.resumeEpoch = 0) :
    (env.fsload (ckptPath (cfg.resumeEpoch - 1)) = none →
        train_model env cfg
          = .fatal [] (.resumeMissing (ckptPath (cfg.resumeEpoch - 1))))
    ∧ (∀ d : Ckpt P O,
        env.fsload (ckptPath (cfg.resumeEpoch - 1)) = some d →
        env.compatible d.state_dict = false →
        train_model env cfg
          = .fatal [] (.resumeIncompatible (ckptPath (cfg.resumeEpoch - 1))))
    ∧ (∀ d : Ckpt P O,
        env.fsload (ckptPath (cfg.resumeEpoch - 1)) = some d →
        env.compatible d.state_dict = true →
        train_model env cfg = runEpochs env cfg (epochList cfg)
          { env.initState with params := d.state_dict, opt := d.opt_dict }) :=
  ⟨fun h => train_model_resume_missing h0 h,
   fun _ h1 h2 => train_model_resume_incompatible h0 h1 h2,
   fun _ h1 h2 => train_model_resume_ok h0 h1 h2⟩

/-- Claim C1, witness: with resume epoch 1 and an empty filesystem, the run
fails before any epoch looking for the file keyed by 0. -/
theorem c1_resume_load_witness :
    train_model envW cfgC1 = .fatal [] (.resumeMissing (ckptPath 0)) :=
  (c1_resume_load envW cfgC1 (by decide)).1 rfl

/-- Claim C1, counterexample to the claim as stated: with resume epoch 1,
the filesystem holds a (compatible) checkpoint at exactly the file whose
name embeds epoch index 1, yet the run fails fatally before any epoch —
it looks for the file keyed by 0, so the loaded file is not "the file whose
name embeds that epoch index". -/
theorem c1_counterexample :
    cfgC1.resumeEpoch = 1
      ∧ envC1.fsload (ckptPath 1) = some ⟨2, 0, 0⟩
      ∧ envC1.compatible 0 = true
      ∧ train_model envC1 cfgC1 = .fatal [] (.resumeMissing (ckptPath 0)) :=
  ⟨rfl, by decide, rfl, by decide⟩

/-- Claim C8 (confirmed): with test evaluation disabled, no event of the
run's trace — over every epoch, whatever the total epoch count or test
interval — belongs to the test namespace: no test CSV dump is written and
no test-namespaced scalar-log entry is emitted. -/
theorem c8_no_test_events (env : Env ι P O G S) (cfg : Cfg)
    (hT : cfg.useTest = false) :
    ((train_model env cfg).trace.all fun ev => !ev.belongsTo "test")
      = true := by
  rw [List.all_eq_true]
  intro ev hev
  have hb : ev.belongsTo "test" = false := by
    obtain ⟨st0, hev⟩ := trace_train_model_sub hev
    obtain ⟨e, -, st', hmem⟩ := mem_runEpochs_trace hev
    exact runEpoch_no_test env cfg e st' hT ev hmem
  rw [hb]
  rfl

/-- Claim C8, witness: the one-epoch run with tests disabled emits no
test-namespaced event. -/
theorem c8_no_test_events_witness :
    ((train_model envW cfgA).trace.all fun ev => !ev.belongsTo "test")
      = true :=
  c8_no_test_events envW cfgA rfl

/-- Claim C9 (confirmed): the end-of-epoch test pass accumulates its batches
by exactly the same no-gradient procedure as the validation phase (equal
accumulators from any state on any batches), and when it runs it leaves the
learning-rate schedule state — indeed the whole trainable state, up to the
`model.eval()` flag — unchanged, performs no schedule step, and writes no
checkpoint. -/
theorem c9_test_frame (env : Env ι P O G S) (e : Nat)
    (st : TState P O G S) :
    (∀ (st0 : TState P O G S) (a : Accum) (bs : List (BatchIn ι)),
        (bs.foldl (testBatchStep env) (st0, a)).2
          = (bs.foldl (batchStep env .wval) (st0, a)).2)
    ∧ (∀ (t : List (Event P O)) (st' : TState P O G S),
        runTest env e st = .ok (t, st') →
        st'.sched = st.sched ∧ st'.params = st.params ∧ st'.opt = st.opt
          ∧ (t.all fun ev => !ev.isCkpt) = true) := by
  constructor
  · intro st0 a bs
    rw [foldl_testBatchStep, foldl_batchStep_snd, obsTraj_wval]
  · intro t st' h
    have hst := runTest_state h
    refine ⟨by rw [hst], by rw [hst], by rw [hst], ?_⟩
    rw [List.all_eq_true]
    intro ev hev
    rw [(runTest_trace_mem h ev hev).1]
    rfl

/-- Claim C9, witness: the concrete test pass of `envW` at epoch 0 leaves
scheduler, parameters and optimizer untouched and writes no checkpoint. -/
theorem c9_test_frame_witness :
    stEvalW.sched = envW.initState.sched
      ∧ stEvalW.params = envW.initState.params
      ∧ stEvalW.opt = envW.initState.opt
      ∧ (ttW.all fun ev => !ev.isCkpt) = true :=
  (c9_test_frame envW 0 envW.initState).2 ttW stEvalW (by with_unfolding_all decide)

/-- Claim C10 (confirmed): validation phases and test passes leave model
parameters and optimizer state numerically unchanged — their batch loops
execute no backward pass and no optimizer step, so the final state's
parameters and optimizer state equal the initial ones. -/
theorem c10_eval_frame (env : Env ι P O G S) (e : Nat)
    (st : TState P O G S) :
    (∀ (bs : List (BatchIn ι)) (st0 : TState P O G S) (a : Accum),
        ((bs.foldl (batchStep env .wval) (st0, a)).1).params = st0.params
          ∧ ((bs.foldl (batchStep env .wval) (st0, a)).1).opt = st0.opt)
    ∧ (∀ (bs : List (BatchIn ι)) (st0 : TState P O G S) (a : Accum),
        (bs.foldl (testBatchStep env) (st0, a)).1 = st0)
    ∧ (∀ (t : List (Event P O)) (st' : TState P O G S),
        runPhase env e .wval st = .ok (t, st') →
        st'.params = st.params ∧ st'.opt = st.opt)
    ∧ (∀ (t : List (Event P O)) (st' : TState P O G S),
        runTest env e st = .ok (t, st') →
        st'.params = st.params ∧ st'.opt = st.opt) := by
  refine ⟨?_, ?_, ?_, ?_⟩
  · intro bs st0 a
    rw [foldl_batchStep_fst]
    have hp := foldl_valStateStep env bs st0
    exact ⟨hp.1, hp.2.1⟩
  · intro bs st0 a
    rw [foldl_testBatchStep]
  · intro t st' h
    exact runPhase_wval_state h
  · intro t st' h
    rw [runTest_state h]
    exact ⟨rfl, rfl⟩

/-- Claim C10, witness: the concrete validation phase of `envW` at epoch 0
leaves parameters and optimizer state unchanged. -/
theorem c10_eval_frame_witness :
    stEvalW.params = envW.initState.params
      ∧ stEvalW.opt = envW.initState.opt :=
  (c10_eval_frame envW 0 envW.initState).2.2.1 tvW stEvalW (by with_unfolding_all decide)

/-- Claim C5 (amended): a successfully completed epoch `e` writes a
checkpoint iff `(e + 1)` is a multiple of the checkpoint interval; every
checkpoint write of a run is to the file named deterministically by its
epoch key, with contents holding the model parameter snapshot, the
optimizer state snapshot and the value `epoch + 1` (not the epoch index
itself); and the keys of a run's checkpoint writes are pairwise distinct,
so a file keyed by one epoch index is never overwritten with a different
epoch's state. -/
theorem c5_checkpoint_policy (env : Env ι P O G S) (cfg : Cfg)
    (hs : 0 < cfg.saveEpoch) :
    (∀ (e : Nat) (st : TState P O G S) (t : List (Event P O))
        (st' : TState P O G S), runEpoch env cfg e st = .ok t st' →
        ((∃ k p d, Event.ckptSave k p d ∈ t)
          ↔ (e + 1) % cfg.saveEpoch = 0))
    ∧ (∀ (k : Nat) (p : String) (d : Ckpt P O),
        Event.ckptSave k p d ∈ (train_model env cfg).trace →
        p = ckptPath k ∧ d.epoch = k + 1 ∧ (k + 1) % cfg.saveEpoch = 0)
    ∧ (ckptKeysOf (train_model env cfg).trace).Nodup := by
  refine ⟨?_, ?_, ?_⟩
  · intro e st t st' hok
    rcases runEpoch_cases env cfg e st with
      ⟨er, htr, heq⟩ | ⟨t1, st1, er, htr, hv, heq⟩ |
      ⟨t1, st1, t2, st2, htr, hv, hrest⟩
    · rw [hok] at heq; exact RunResult.noConfusion heq
    · rw [hok] at heq; exact RunResult.noConfusion heq
    · have hmem_of : ∀ {tphase : List (Event P O)},
          (∀ ev ∈ tphase, ev.isCkpt = false ∧ True) →
          ∀ {k : Nat} {p : String} {d : Ckpt P O},
          Event.ckptSave k p d ∈ tphase → False := by
        intro tphase hall k p d hm
        have := (hall _ hm).1
        simp [Event.isCkpt] at this
      rcases hrest with ⟨-, ⟨er, hts, heq⟩ | ⟨t4, st4, hts, heq⟩⟩ | ⟨-, heq⟩
      · rw [hok] at heq; exact RunResult.noConfusion heq
      · rw [hok, RunResult.ok.injEq] at heq
        obtain ⟨hteq, -⟩ := heq
        subst hteq
        constructor
        · rintro ⟨k, p, d, hm⟩
          simp only [List.mem_append] at hm
          rcases hm with ((hm | hm) | hm) | hm
          · exact absurd ((runPhase_trace_mem htr _ hm).1) (by simp [Event.isCkpt])
          · exact absurd ((runPhase_trace_mem hv _ hm).1) (by simp [Event.isCkpt])
          · have hsp : e % cfg.saveEpoch = cfg.saveEpoch - 1 := by
              by_contra hne
              rw [ckptEvents, if_neg hne] at hm
              simp at hm
            exact (mod_eq_pred_iff e hs).mp hsp
          · exact absurd ((runTest_trace_mem hts _ hm).1) (by simp [Event.isCkpt])
        · intro hmod
          have hsp := (mod_eq_pred_iff e hs).mpr hmod
          refine ⟨e, ckptPath e, ⟨e + 1, st2.params, st2.opt⟩, ?_⟩
          simp only [List.mem_append]
          refine .inl (.inr ?_)
          rw [ckptEvents, if_pos hsp]
          simp
      · rw [hok, RunResult.ok.injEq] at heq
        obtain ⟨hteq, -⟩ := heq
        subst hteq
        constructor
        · rintro ⟨k, p, d, hm⟩
          simp only [List.mem_append] at hm
          rcases hm with (hm | hm) | hm
          · exact absurd ((runPhase_trace_mem htr _ hm).1) (by simp [Event.isCkpt])
          · exact absurd ((runPhase_trace_mem hv _ hm).1) (by simp [Event.isCkpt])
          · have hsp : e % cfg.saveEpoch = cfg.saveEpoch - 1 := by
              by_contra hne
              rw [ckptEvents, if_neg hne] at hm
              simp at hm
            exact (mod_eq_pred_iff e hs).mp hsp
        · intro hmod
          have hsp := (mod_eq_pred_iff e hs).mpr hmod
          refine ⟨e, ckptPath e, ⟨e + 1, st2.params, st2.opt⟩, ?_⟩
          simp only [List.mem_append]
          refine .inr ?_
          rw [ckptEvents, if_pos hsp]
          simp
  · intro k p d hm
    obtain ⟨hp, hd, hsp, -⟩ := ckptSave_mem_run hm
    exact ⟨hp, hd, (mod_eq_pred_iff k hs).mp hsp⟩
  · by_cases h0 : cfg.resumeEpoch = 0
    · rw [train_model_fresh h0]
      exact ckptKeysOf_runEpochs_nodup env cfg _ (epochList_nodup cfg) _
    · cases hfs : env.fsload (ckptPath (cfg.resumeEpoch - 1)) with
      | none =>
        rw [train_model_resume_missing h0 hfs]
        simp [RunResult.trace, ckptKeysOf, ckptSavesOf]
      | some d =>
        cases hc : env.compatible d.state_dict with
        | false =>
          rw [train_model_resume_incompatible h0 hfs hc]
          simp [RunResult.trace, ckptKeysOf, ckptSavesOf]
        | true =>
          rw [train_model_resume_ok h0 hfs hc]
          exact ckptKeysOf_runEpochs_nodup env cfg _ (epochList_nodup cfg) _

/-- Claim C5, witness: the checkpoint keys of the concrete one-epoch run are
pairwise distinct. -/
theorem c5_checkpoint_policy_witness :
    (ckptKeysOf (train_model envW cfgA).trace).Nodup :=
  (c5_checkpoint_policy envW cfgA (by decide)).2.2

/-- Claim C5, counterexample to the claim as stated: the single checkpoint
of the concrete one-epoch run is keyed by epoch index 0, but its stored
epoch field is 1, not the epoch index — the contents are not "the model
parameter snapshot, the optimizer state snapshot, and the epoch index". -/
theorem c5_counterexample :
    ckptSavesOf (train_model envW cfgA).trace = [(0, ⟨1, 1, 1⟩)]
      ∧ (1 : Nat) ≠ 0 :=
  ⟨by with_unfolding_all decide, by decide⟩

/-- Claim C2 (amended): a checkpoint saved at epoch `k` stores the epoch
value `k + 1`; resuming a run from that checkpoint (which, per the load
path, means setting the resume epoch to `k + 1`) continues the epoch loop
over `[resume_epoch, total_epochs) = [k + 1, total_epochs)` from the loaded
parameters and optimizer state — i.e. epoch indexing continues at `k + 1`,
the value stored in the checkpoint, not at `k`; every scalar/CSV record of
the resumed loop is stamped with an epoch in `[k + 1, total_epochs)`. -/
theorem c2_resume_roundtrip (env : Env ι P O G S) (cfg cfg2 : Cfg)
    (k : Nat) :
    (∀ (p : String) (d : Ckpt P O),
        Event.ckptSave k p d ∈ (train_model env cfg).trace →
        d.epoch = k + 1)
    ∧ (cfg2.resumeEpoch = k + 1 →
        ∀ d : Ckpt P O, env.fsload (ckptPath k) = some d →
        env.compatible d.state_dict = true →
        train_model env cfg2 = runEpochs env cfg2
          (List.range' (k + 1) (cfg2.numEpochs - (k + 1)))
          { env.initState with params := d.state_dict, opt := d.opt_dict })
    ∧ (∀ st : TState P O G S,
        ∀ x ∈ loggedEpochsOf (runEpochs env cfg2
          (List.range' (k + 1) (cfg2.numEpochs - (k + 1))) st).trace,
        k + 1 ≤ x ∧ x < cfg2.numEpochs) := by
  refine ⟨?_, ?_, ?_⟩
  · intro p d hm
    exact (ckptSave_mem_run hm).2.1
  · intro hres d hfs hc
    have h0 : ¬ cfg2.resumeEpoch = 0 := by rw [hres]; exact Nat.succ_ne_zero k
    have hk : cfg2.resumeEpoch - 1 = k := by rw [hres]; rfl
    rw [train_model_resume_ok h0 (by rw [hk]; exact hfs) hc, epochList, hres]
  · intro st x hx
    have hin := loggedEpochs_runEpochs_sub env cfg2 _ st x hx
    have hb := List.mem_range'_1.mp hin
    omega

/-- Claim C2, witness: resuming `envC2` (whose filesystem holds exactly the
checkpoint written at epoch 0 by the run `train_model envW cfgA`) with
resume epoch 1 runs the epoch loop over `[1, 2)` from the loaded state. -/
theorem c2_resume_roundtrip_witness :
    train_model envC2 cfgC2 = runEpochs envC2 cfgC2 (List.range' 1 1)
      { envC2.initState with params := 1, opt := 1 } :=
  (c2_resume_roundtrip envC2 cfgC2 cfgC2 0).2.1 rfl ⟨1, 1, 1⟩ (by decide) rfl

/-- Claim C2, counterexample to the claim as stated: the run
`train_model envW cfgA` saves a checkpoint at epoch `k = 0` (file keyed 0,
stored epoch value 1); resuming from that checkpoint (resume epoch 1, so
that the load path is the file keyed 0) produces a run whose logged epochs
are all 1 and never 0 — epoch indexing continues at `k + 1 = 1`, not at
`k = 0`. -/
theorem c2_counterexample :
    Event.ckptSave 0 (ckptPath 0) ⟨1, 1, 1⟩ ∈ (train_model envW cfgA).trace
      ∧ envC2.fsload (ckptPath 0) = some ⟨1, 1, 1⟩
      ∧ cfgC2.resumeEpoch = 1
      ∧ loggedEpochsOf (train_model envC2 cfgC2).trace ≠ []
      ∧ (0 : Nat) ∉ loggedEpochsOf (train_model envC2 cfgC2).trace
      ∧ ∀ x ∈ loggedEpochsOf (train_model envC2 cfgC2).trace, x = 1 := by
  refine ⟨by with_unfolding_all decide, by decide, rfl,
    by with_unfolding_all decide, by with_unfolding_all decide,
    by with_unfolding_all decide⟩

/-- Claim C3 (amended): a single-class accumulated true-label list makes the
AUC computation undefined and the run terminate with the fatal error
propagated from the metric computation, with no placeholder value logged and
no dump written for the degenerate (epoch, split); when the degenerate
split is the train or validation split, no checkpoint is written for the
in-progress epoch (a degenerate train split aborts the epoch with an empty
trace; a degenerate validation split leaves only train-phase events, no
checkpoint); when the degenerate split is the test split the run still
terminates fatally with no test-namespace event, but a checkpoint due at
that epoch has already been written before the test pass fails. -/
theorem c3_degenerate_fatal (env : Env ι P O G S) (cfg : Cfg) (e : Nat)
    (st : TState P O G S) :
    (degenerateLabels (phaseLabels env e .train) →
        runEpoch env cfg e st = .fatal [] (.aucUndefined e "train"))
    ∧ (degenerateLabels (phaseLabels env e .wval) →
        (runEpoch env cfg e st).isFatal = true
          ∧ ((runEpoch env cfg e st).trace.all
              fun ev => !ev.isCkpt && !ev.belongsTo "val") = true)
    ∧ (cfg.useTest = true → e % cfg.testInterval = cfg.testInterval - 1 →
        degenerateLabels (testLabels env e) →
        (runEpoch env cfg e st).isFatal = true
          ∧ ((runEpoch env cfg e st).trace.all
              fun ev => !ev.belongsTo "test") = true)
    ∧ (e ∈ epochList cfg →
        (degenerateLabels (phaseLabels env e .train)
          ∨ degenerateLabels (phaseLabels env e .wval)
          ∨ (cfg.useTest = true ∧ e % cfg.testInterval = cfg.testInterval - 1
              ∧ degenerateLabels (testLabels env e))) →
        (train_model env cfg).isFatal = true) := by
  refine ⟨?_, ?_, ?_, ?_⟩
  · intro hd
    have hE := runPhase_error_of_degenerate hd st
    rw [runEpoch, hE]
    rfl
  · intro hd
    rcases runEpoch_cases env cfg e st with
      ⟨er, htr, heq⟩ | ⟨t1, st1, er, htr, hv, heq⟩ |
      ⟨t1, st1, t2, st2, htr, hv, hrest⟩
    · rw [heq]
      exact ⟨rfl, by simp [RunResult.trace]⟩
    · rw [heq]
      refine ⟨rfl, ?_⟩
      rw [List.all_eq_true]
      intro ev hev
      have h1 := runPhase_trace_mem htr ev hev
      have hnv := belongsTo_disjoint h1.2.1 phaseTags_train_val (by decide)
      rw [h1.1, hnv]
      rfl
    · rw [runPhase_error_of_degenerate hd st1] at hv
      exact Except.noConfusion hv
  · intro hu hi hd
    rcases runEpoch_cases env cfg e st with
      ⟨er, htr, heq⟩ | ⟨t1, st1, er, htr, hv, heq⟩ |
      ⟨t1, st1, t2, st2, htr, hv, hrest⟩
    · rw [heq]
      exact ⟨rfl, by simp [RunResult.trace]⟩
    · rw [heq]
      refine ⟨rfl, ?_⟩
      rw [List.all_eq_true]
      intro ev hev
      have h1 := runPhase_trace_mem htr ev hev
      rw [belongsTo_disjoint h1.2.1 phaseTags_train_test (by decide)]
      rfl
    · rcases hrest with ⟨-, ⟨er, hts, heq⟩ | ⟨t4, st4, hts, heq⟩⟩ | ⟨hT, -⟩
      · rw [heq]
        refine ⟨rfl, ?_⟩
        rw [List.all_eq_true]
        intro ev hev
        simp only [RunResult.trace, List.mem_append] at hev
        rcases hev with (hev | hev) | hev
        · rw [belongsTo_disjoint (runPhase_trace_mem htr ev hev).2.1
            phaseTags_train_test (by decide)]
          rfl
        · rw [belongsTo_disjoint (runPhase_trace_mem hv ev hev).2.1
            phaseTags_val_test (by decide)]
          rfl
        · rw [mem_ckptEvents hev]
          rfl
      · rw [runTest_error_of_degenerate hd st2] at hts
        exact Except.noConfusion hts
      · exact absurd ⟨hu, hi⟩ hT
  · intro hel hd
    by_cases h0 : cfg.resumeEpoch = 0
    · rw [train_model_fresh h0]
      exact runEpochs_fatal_of_epoch_fatal
        (runEpoch_fatal_of_degenerate hd) hel _
    · cases hfs : env.fsload (ckptPath (cfg.resumeEpoch - 1)) with
      | none => rw [train_model_resume_missing h0 hfs]; rfl
      | some d =>
        cases hc : env.compatible d.state_dict with
        | false => rw [train_model_resume_incompatible h0 hfs hc]; rfl
        | true =>
          rw [train_model_resume_ok h0 hfs hc]
          exact runEpochs_fatal_of_epoch_fatal
            (runEpoch_fatal_of_degenerate hd) hel _

/-- Claim C3, witness: with a single-class validation split, the epoch is
fatal, nothing of the validation namespace is emitted, and no checkpoint is
written; with a single-class train split the epoch aborts with an empty
trace; and the corresponding full runs are fatal. -/
theorem c3_degenerate_fatal_witness :
    ((runEpoch envC3v cfgC3 0 envC3v.initState).isFatal = true
      ∧ ((runEpoch envC3v cfgC3 0 envC3v.initState).trace.all
          fun ev => !ev.isCkpt && !ev.belongsTo "val") = true)
    ∧ (train_model envC3v cfgC3).isFatal = true
    ∧ ((runEpoch envC3 cfgC3 0 envC3.initState).isFatal = true
      ∧ ((runEpoch envC3 cfgC3 0 envC3.initState).trace.all
          fun ev => !ev.belongsTo "test") = true) :=
  ⟨(c3_degenerate_fatal envC3v cfgC3 0 envC3v.initState).2.1
      ⟨by decide, 0, by decide⟩,
   (c3_degenerate_fatal envC3v cfgC3 0 envC3v.initState).2.2.2 (by decide)
      (.inr (.inl ⟨by decide, 0, by decide⟩)),
   (c3_degenerate_fatal envC3 cfgC3 0 envC3.initState).2.2.1 rfl rfl
      ⟨by decide, 0, by decide⟩⟩

/-- Claim C3, counterexample to the claim as stated: with a single-class
test split at an epoch whose checkpoint is due, the run terminates fatally
on the AUC error, yet the trace already holds the checkpoint written for
the in-progress epoch — contradicting "no checkpoint is written for the
in-progress epoch" for the (epoch, test-split) pair. -/
theorem c3_counterexample :
    degenerateLabels (testLabels envC3 0)
      ∧ (train_model envC3 cfgC3).isFatal = true
      ∧ Event.ckptSave 0 (ckptPath 0) ⟨1, 1, 1⟩
          ∈ (train_model envC3 cfgC3).trace :=
  ⟨⟨by decide, 0, by decide⟩, by with_unfolding_all decide,
    by with_unfolding_all decide⟩

/-- Claim C6 (confirmed): for every (epoch, split) — train, val, and the
test pass — the logged loss metric equals the sum over the split's batches
of (observed batch loss × batch size) divided by the split's total sample
count, computed once after all batches of the split are consumed; the
loss-tagged scalar of the phase's trace carries exactly this value and no
other. -/
theorem c6_loss_weighted_mean (env : Env ι P O G S) (e : Nat) (ph : Phase)
    (st : TState P O G S) (t : List (Event P O)) (st' : TState P O G S)
    (hok : runPhase env e ph st = .ok (t, st')) :
    (Event.scalar (lossTag ph.nameStr) e
        (((obsTraj env ph (phaseStart env ph st) (env.loadBatches e ph)).map
            fun o => o.loss * (o.labels.length : ℚ)).sum
          / (env.splitSize ph : ℚ)) ∈ t)
    ∧ (∀ v : ℚ, Event.scalar (lossTag ph.nameStr) e v ∈ t →
        v = ((obsTraj env ph (phaseStart env ph st)
              (env.loadBatches e ph)).map
            fun o => o.loss * (o.labels.length : ℚ)).sum
          / (env.splitSize ph : ℚ))
    ∧ (∀ (tt : List (Event P O)) (stt : TState P O G S),
        runTest env e st = .ok (tt, stt) →
        Event.scalar (lossTag "test") e
          ((((env.testBatches e).map
                (obsOf env { st with training := false })).map
              fun o => o.loss * (o.labels.length : ℚ)).sum
            / (env.testSize : ℚ)) ∈ tt) := by
  obtain ⟨hm, -⟩ := runPhase_eq_ok hok
  obtain ⟨auc, -, ht⟩ := metricEvents_eq_some hm
  subst ht
  refine ⟨?_, ?_, ?_⟩
  · rw [phase_accum]
    simp [scalarEvents, save_to_csv]
  · intro v hv
    rw [phase_accum] at hv
    simp only [scalarEvents, save_to_csv, List.mem_cons, List.not_mem_nil,
      or_false] at hv
    rcases hv with h | h | h | h | h | h
    · exact absurd h (by simp)
    · rw [Event.scalar.injEq] at h
      exact h.2.2
    · rw [Event.scalar.injEq] at h
      exact absurd h.1
        (tag_suffix_ne ph.nameStr "_loss_epoch" "_acc_epoch" (by decide))
    · rw [Event.scalar.injEq] at h
      exact absurd h.1
        (tag_suffix_ne ph.nameStr "_loss_epoch" "_auc_epoch" (by decide))
    · rw [Event.scalar.injEq] at h
      exact absurd h.1
        (tag_suffix_ne ph.nameStr "_loss_epoch" "_sensitivity_epoch"
          (by decide))
    · rw [Event.scalar.injEq] at h
      exact absurd h.1
        (tag_suffix_ne ph.nameStr "_loss_epoch" "_specificity_epoch"
          (by decide))
  · intro tt stt htt
    obtain ⟨hmt, -⟩ := runTest_eq_ok htt
    obtain ⟨auct, -, htt2⟩ := metricEvents_eq_some hmt
    subst htt2
    rw [test_accum]
    simp [scalarEvents, save_to_csv]

/-- Claim C6, witness: the concrete train phase of `envW` at epoch 0 logs
the weighted-mean loss. -/
theorem c6_loss_weighted_mean_witness :
    Event.scalar (lossTag Phase.train.nameStr) 0
        (((obsTraj envW .train (phaseStart envW .train envW.initState)
              (envW.loadBatches 0 .train)).map
            fun o => o.loss * (o.labels.length : ℚ)).sum
          / (envW.splitSize .train : ℚ)) ∈ trW :=
  (c6_loss_weighted_mean envW 0 .train envW.initState trW stW
    (by with_unfolding_all decide)).1

/-- Claim C4 (confirmed): for every (epoch, phase) of the train/val loop,
the prediction dump's rows are the per-sample (true label, positive-class
probability) pairs, and the accuracy recomputed from those rows by
thresholding the positive-class probability at 0.5 (predict 1 iff
probability > 0.5) equals the logged accuracy metric — the count of samples
whose (two-class) argmax prediction equals the true label divided by the
split size — which the phase logs under the accuracy tag. -/
theorem c4_dump_accuracy (env : Env ι P O G S) (e : Nat) (ph : Phase)
    (st : TState P O G S) (t : List (Event P O)) (st' : TState P O G S)
    (hok : runPhase env e ph st = .ok (t, st'))
    (hlen : ∀ o ∈ obsTraj env ph (phaseStart env ph st)
        (env.loadBatches e ph), o.probs.length = o.labels.length) :
    Event.csvDump ph.nameStr e (csvPath ph.nameStr e)
        ["TrueLabel", "Probability"]
        (((obsTraj env ph (phaseStart env ph st)
            (env.loadBatches e ph)).map
          fun o => o.labels.zip o.probs).flatten) ∈ t
    ∧ Event.scalar (accTag ph.nameStr) e
        (((((obsTraj env ph (phaseStart env ph st)
                (env.loadBatches e ph)).map
              fun o => o.labels.zip o.probs).flatten).countP
            (fun r => (if (1 : ℚ) / 2 < r.2 then 1 else 0) == r.1) : ℚ)
          / (env.splitSize ph : ℚ)) ∈ t := by
  obtain ⟨hm, -⟩ := runPhase_eq_ok hok
  obtain ⟨auc, -, ht⟩ := metricEvents_eq_some hm
  subst ht
  have hzip := zip_flatten_obs _ hlen
  have hcnt : ((obsTraj env ph (phaseStart env ph st)
        (env.loadBatches e ph)).map
      fun o => countCorrect (o.probs.map pred2) o.labels).sum
      = (((obsTraj env ph (phaseStart env ph st)
            (env.loadBatches e ph)).map
          fun o => o.labels.zip o.probs).flatten).countP
        (fun r => (if (1 : ℚ) / 2 < r.2 then 1 else 0) == r.1) := by
    rw [List.countP_flatten, List.map_map]
    congr 1
    apply List.map_congr_left
    intro o _
    exact countCorrect_threshold o.labels o.probs
  constructor
  · have := csv_mem_runPhase hok hlen
    rw [phase_accum] at this ⊢
    exact this
  · rw [phase_accum]
    simp only [save_to_csv, scalarEvents, List.mem_cons]
    refine .inr (.inr (.inl ?_))
    rw [← hcnt]

/-- Claim C4, witness: the concrete train phase of `envW` at epoch 0 dumps
its rows and logs the accuracy that the threshold recomputation yields. -/
theorem c4_dump_accuracy_witness :
    Event.csvDump Phase.train.nameStr 0 (csvPath Phase.train.nameStr 0)
        ["TrueLabel", "Probability"]
        (((obsTraj envW .train (phaseStart envW .train envW.initState)
            (envW.loadBatches 0 .train)).map
          fun o => o.labels.zip o.probs).flatten) ∈ trW
    ∧ Event.scalar (accTag Phase.train.nameStr) 0
        (((((obsTraj envW .train (phaseStart envW .train envW.initState)
                (envW.loadBatches 0 .train)).map
              fun o => o.labels.zip o.probs).flatten).countP
            (fun r => (if (1 : ℚ) / 2 < r.2 then 1 else 0) == r.1) : ℚ)
          / (envW.splitSize .train : ℚ)) ∈ trW :=
  c4_dump_accuracy envW 0 .train envW.initState trW stW
    (by with_unfolding_all decide) (by with_unfolding_all decide)

/-- Claim C7 (confirmed): for every (epoch, phase) of the train/val loop,
the prediction dump starts with the header row {TrueLabel, Probability} at
the path determined by phase and epoch, contains exactly one data row per
sample of the split in the order samples were observed that epoch — each
row the sample's integer true label paired with the model's positive-class
probability — and its data row count equals the split's sample count. -/
theorem c7_dump_rows (env : Env ι P O G S) (e : Nat) (ph : Phase)
    (st : TState P O G S) (t : List (Event P O)) (st' : TState P O G S)
    (hok : runPhase env e ph st = .ok (t, st'))
    (hlen : ∀ o ∈ obsTraj env ph (phaseStart env ph st)
        (env.loadBatches e ph), o.probs.length = o.labels.length)
    (hsize : (((env.loadBatches e ph).map BatchIn.labels).map
        List.length).sum = env.splitSize ph) :
    Event.csvDump ph.nameStr e (csvPath ph.nameStr e)
        ["TrueLabel", "Probability"]
        (((obsTraj env ph (phaseStart env ph st)
            (env.loadBatches e ph)).map
          fun o => o.labels.zip o.probs).flatten) ∈ t
    ∧ (((obsTraj env ph (phaseStart env ph st)
          (env.loadBatches e ph)).map
        fun o => o.labels.zip o.probs).flatten).length
      = env.splitSize ph := by
  constructor
  · exact csv_mem_runPhase hok hlen
  · have h1 : (((obsTraj env ph (phaseStart env ph st)
          (env.loadBatches e ph)).map
        fun o => o.labels.zip o.probs).flatten).length
        = ((obsTraj env ph (phaseStart env ph st)
            (env.loadBatches e ph)).map
          fun o => o.labels.length).sum := by
      rw [List.length_flatten, List.map_map]
      congr 1
      apply List.map_congr_left
      intro o ho
      simp [List.length_zip, hlen o ho]
    have h2 : ((obsTraj env ph (phaseStart env ph st)
          (env.loadBatches e ph)).map fun o => o.labels.length).sum
        = (((env.loadBatches e ph).map BatchIn.labels).map
            List.length).sum := by
      rw [← obsTraj_labels env ph (env.loadBatches e ph)
        (phaseStart env ph st), List.map_map]
      congr 1
    rw [h1, h2, hsize]

/-- Claim C7, witness: the concrete val phase of `envW` at epoch 0 dumps
the header plus one row per sample, and the row count equals the split
size. -/
theorem c7_dump_rows_witness :
    Event.csvDump Phase.wval.nameStr 0 (csvPath Phase.wval.nameStr 0)
        ["TrueLabel", "Probability"]
        (((obsTraj envW .wval (phaseStart envW .wval envW.initState)
            (envW.loadBatches 0 .wval)).map
          fun o => o.labels.zip o.probs).flatten) ∈ tvW
    ∧ (((obsTraj envW .wval (phaseStart envW .wval envW.initState)
          (envW.loadBatches 0 .wval)).map
        fun o => o.labels.zip o.probs).flatten).length
      = envW.splitSize .wval :=
  c7_dump_rows envW 0 .wval envW.initState tvW stEvalW
    (by with_unfolding_all decide) (by with_unfolding_all decide)
    (by decide)

end Claims

end C2Net
